import Mathlib

/-!
# Verification of the books-crawler chapter-storage subsystem

A shallow embedding of the BLIB bundle codec (`book-ingest/src/bundle.py`),
the EPUB builder's inline-metadata reader (`epub-converter/epub_builder.py`),
the API walk planner (`book-ingest/src/sources/mtc.py`), the relational
chapter sync (`book-ingest/src/db.py`), the chapter compressor
(`book-ingest/src/compress.py`), the AES key extraction
(`crawler-descryptor/src/decrypt.py`) and the title-dedup step of
`decrypt_chapter` (`book-ingest/src/api.py`).

Python byte strings are modelled as `List Nat` (each element a byte value),
Python `str` values as `List Nat` of Unicode code points, and Python dicts
as association lists with distinct keys.  Functions that can raise in
Python return `Option`/`Except` here.
-/

namespace BooksCrawler

/-! ## Little-endian byte primitives (struct.pack / struct.unpack_from) -/

/-- `struct.pack("<I", n)`: four little-endian bytes of `n` (defined for `n < 2^32`). -/
def le32 (n : Nat) : List Nat :=
  [n % 256, n / 256 % 256, n / 65536 % 256, n / 16777216 % 256]

/-- `struct.pack("<H", n)`: two little-endian bytes of `n` (defined for `n < 2^16`). -/
def le16 (n : Nat) : List Nat :=
  [n % 256, n / 256 % 256]

/-- `struct.unpack_from("<I", buf, off)[0]`, with out-of-range bytes read as 0. -/
def readLe32 (buf : List Nat) (off : Nat) : Nat :=
  buf.getD off 0 + 256 * buf.getD (off + 1) 0 + 65536 * buf.getD (off + 2) 0 +
    16777216 * buf.getD (off + 3) 0

/-- `struct.unpack_from("<H", buf, off)[0]`, with out-of-range bytes read as 0. -/
def readLe16 (buf : List Nat) (off : Nat) : Nat :=
  buf.getD off 0 + 256 * buf.getD (off + 1) 0

@[simp] theorem le32_length (n : Nat) : (le32 n).length = 4 := rfl

@[simp] theorem le16_length (n : Nat) : (le16 n).length = 2 := rfl

theorem readLe32_le32 (n : Nat) (hn : n < 4294967296) (rest : List Nat) :
    readLe32 (le32 n ++ rest) 0 = n := by
  simp [readLe32, le32, List.getD]
  omega

/-- Reading four bytes that lie entirely inside the left part of an append. -/
theorem readLe32_append_left (a b : List Nat) (off : Nat) (h : off + 4 ≤ a.length) :
    readLe32 (a ++ b) off = readLe32 a off := by
  unfold readLe32
  rw [List.getD_append a b 0 off (by omega), List.getD_append a b 0 (off + 1) (by omega),
    List.getD_append a b 0 (off + 2) (by omega), List.getD_append a b 0 (off + 3) (by omega)]

/-- Reading four bytes past the left part of an append. -/
theorem readLe32_append_right (a b : List Nat) (off : Nat) :
    readLe32 (a ++ b) (a.length + off) = readLe32 b off := by
  unfold readLe32
  rw [List.getD_append_right a b 0 (a.length + off) (by omega),
    List.getD_append_right a b 0 (a.length + off + 1) (by omega),
    List.getD_append_right a b 0 (a.length + off + 2) (by omega),
    List.getD_append_right a b 0 (a.length + off + 3) (by omega)]
  have e0 : a.length + off - a.length = off := by omega
  have e1 : a.length + off + 1 - a.length = off + 1 := by omega
  have e2 : a.length + off + 2 - a.length = off + 2 := by omega
  have e3 : a.length + off + 3 - a.length = off + 3 := by omega
  rw [e0, e1, e2, e3]

theorem readLe16_append_right (a b : List Nat) (off : Nat) :
    readLe16 (a ++ b) (a.length + off) = readLe16 b off := by
  unfold readLe16
  rw [List.getD_append_right a b 0 (a.length + off) (by omega),
    List.getD_append_right a b 0 (a.length + off + 1) (by omega)]
  have e0 : a.length + off - a.length = off := by omega
  have e1 : a.length + off + 1 - a.length = off + 1 := by omega
  rw [e0, e1]

theorem readLe32_lt (buf : List Nat) (off : Nat) (h : ∀ x ∈ buf, x < 256) :
    readLe32 buf off < 4294967296 := by
  unfold readLe32
  have g : ∀ k, buf.getD k 0 < 256 := by
    intro k
    rcases Nat.lt_or_ge k buf.length with hk | hk
    · rw [List.getD_eq_getElem buf 0 hk]; exact h _ (List.getElem_mem hk)
    · rw [List.getD_eq_default buf 0 hk]; omega
  have := g off; have := g (off + 1); have := g (off + 2); have := g (off + 3)
  omega

/-! ## UTF-8 model

Python `str.encode("utf-8")` and `bytes.decode("utf-8", errors="replace")`.
Strings are lists of Unicode code points.  `utf8DecodeReplace` follows
CPython's replacement behaviour: one U+FFFD per maximal invalid subpart.
The decoder is written with a byte-consuming step function plus explicit
fuel so that it evaluates by kernel reduction.
-/

/-- A code point Python's `str.encode("utf-8")` accepts: a Unicode scalar value. -/
def EncChar (c : Nat) : Prop := c < 1114112 ∧ (c < 55296 ∨ 57344 ≤ c)

instance (c : Nat) : Decidable (EncChar c) := by unfold EncChar; infer_instance

/-- Every code point of the string is encodable (else `.encode` raises). -/
def EncStr (s : List Nat) : Prop := ∀ c ∈ s, EncChar c

instance (s : List Nat) : Decidable (EncStr s) := List.decidableBAll _ s

/-- UTF-8 encoding of one scalar value. -/
def utf8EncodeChar (c : Nat) : List Nat :=
  if c < 128 then [c]
  else if c < 2048 then [192 + c / 64, 128 + c % 64]
  else if c < 65536 then [224 + c / 4096, 128 + c / 64 % 64, 128 + c % 64]
  else [240 + c / 262144, 128 + c / 4096 % 64, 128 + c / 64 % 64, 128 + c % 64]

/-- `s.encode("utf-8")` on a string of scalar values. -/
def utf8Encode (s : List Nat) : List Nat := s.flatMap utf8EncodeChar

/-- Is `b` a UTF-8 continuation byte? -/
def contB (b : Nat) : Bool := 128 ≤ b && b < 192

/-- One decoding step at byte `b` with following bytes `rest`.
Returns `(code point, extra bytes consumed from rest, was the sequence valid)`.
Invalid or truncated sequences yield U+FFFD (65533) and consume the maximal
valid subpart, matching CPython's `errors="replace"`. -/
def utf8Step (b : Nat) (rest : List Nat) : Nat × Nat × Bool :=
  if b < 128 then (b, 0, true)
  else if b < 194 then (65533, 0, false)
  else if b < 224 then
    match rest with
    | b2 :: _ =>
      if contB b2 then ((b - 192) * 64 + (b2 - 128), 1, true) else (65533, 0, false)
    | [] => (65533, 0, false)
  else if b < 240 then
    match rest with
    | b2 :: r2 =>
      if contB b2 && !(b == 224 && b2 < 160) && !(b == 237 && 160 ≤ b2) then
        match r2 with
        | b3 :: _ =>
          if contB b3 then ((b - 224) * 4096 + (b2 - 128) * 64 + (b3 - 128), 2, true)
          else (65533, 1, false)
        | [] => (65533, 1, false)
      else (65533, 0, false)
    | [] => (65533, 0, false)
  else if b < 245 then
    match rest with
    | b2 :: r2 =>
      if contB b2 && !(b == 240 && b2 < 144) && !(b == 244 && 144 ≤ b2) then
        match r2 with
        | b3 :: r3 =>
          if contB b3 then
            match r3 with
            | b4 :: _ =>
              if contB b4 then
                ((b - 240) * 262144 + (b2 - 128) * 4096 + (b3 - 128) * 64 + (b4 - 128), 3, true)
              else (65533, 2, false)
            | [] => (65533, 2, false)
          else (65533, 1, false)
        | [] => (65533, 1, false)
      else (65533, 0, false)
    | [] => (65533, 0, false)
  else (65533, 0, false)

/-- Fuelled decoding loop; `fuel ≥` input length never exhausts. -/
def utf8DecAux : Nat → List Nat → List Nat
  | 0, _ => []
  | _ + 1, [] => []
  | fuel + 1, b :: rest =>
    let s := utf8Step b rest
    s.1 :: utf8DecAux fuel (rest.drop s.2.1)

/-- `bytes.decode("utf-8", errors="replace")`. -/
def utf8DecodeReplace (bytes : List Nat) : List Nat := utf8DecAux bytes.length bytes

/-- Fuelled validation loop. -/
def utf8ValidAux : Nat → List Nat → Bool
  | 0, _ => true
  | _ + 1, [] => true
  | fuel + 1, b :: rest =>
    let s := utf8Step b rest
    s.2.2 && utf8ValidAux fuel (rest.drop s.2.1)

/-- Is the byte string well-formed UTF-8? -/
def utf8Valid (bytes : List Nat) : Bool := utf8ValidAux bytes.length bytes

theorem utf8DecAux_length_le :
    ∀ (fuel : Nat) (l : List Nat), (utf8DecAux fuel l).length ≤ l.length := by
  intro fuel
  induction fuel with
  | zero => intro l; simp [utf8DecAux]
  | succ n ih =>
    intro l
    match l with
    | [] => simp [utf8DecAux]
    | b :: rest =>
      have h := ih (rest.drop (utf8Step b rest).2.1)
      have hd : (rest.drop (utf8Step b rest).2.1).length ≤ rest.length := by
        simp [List.length_drop]
      simp only [utf8DecAux, List.length_cons]
      omega

theorem utf8Step_encChar (b : Nat) (rest : List Nat) : EncChar (utf8Step b rest).1 := by
  unfold utf8Step
  repeat' split
  all_goals simp_all [contB, EncChar]
  all_goals omega

theorem utf8EncodeChar_step (c : Nat) (hc : EncChar c) (rest : List Nat) :
    ∃ b bs, utf8EncodeChar c = b :: bs ∧ utf8Step b (bs ++ rest) = (c, bs.length, true) := by
  obtain ⟨h1, h2⟩ := hc
  by_cases ha : c < 128
  · exact ⟨c, [], by simp [utf8EncodeChar, ha], by simp [utf8Step, ha]⟩
  · by_cases hb : c < 2048
    · refine ⟨192 + c / 64, [128 + c % 64], by simp [utf8EncodeChar, ha, hb], ?_⟩
      rw [utf8Step.eq_def]
      rw [if_neg (by omega), if_neg (by omega), if_pos (by omega)]
      simp only [List.cons_append]
      rw [if_pos (by simp [contB]; omega)]
      simp only [List.length_cons, List.length_nil, Prod.mk.injEq]
      repeat' apply And.intro
      all_goals first | omega | trivial
    · by_cases hc3 : c < 65536
      · refine ⟨224 + c / 4096, [128 + c / 64 % 64, 128 + c % 64],
          by simp [utf8EncodeChar, ha, hb, hc3], ?_⟩
        rw [utf8Step.eq_def]
        rw [if_neg (by omega), if_neg (by omega), if_neg (by omega), if_pos (by omega)]
        simp only [List.cons_append]
        rw [if_pos (by simp [contB]; omega)]
        rw [if_pos (by simp [contB]; omega)]
        simp only [List.length_cons, List.length_nil, Prod.mk.injEq]
        repeat' apply And.intro
        all_goals first | omega | trivial
      · refine ⟨240 + c / 262144, [128 + c / 4096 % 64, 128 + c / 64 % 64, 128 + c % 64],
          by simp [utf8EncodeChar, ha, hb, hc3], ?_⟩
        rw [utf8Step.eq_def]
        rw [if_neg (by omega), if_neg (by omega), if_neg (by omega), if_neg (by omega),
          if_pos (by omega)]
        simp only [List.cons_append]
        rw [if_pos (by simp [contB]; omega)]
        rw [if_pos (by simp [contB]; omega)]
        rw [if_pos (by simp [contB]; omega)]
        simp only [List.length_cons, List.length_nil, Prod.mk.injEq]
        repeat' apply And.intro
        all_goals first | omega | trivial

theorem utf8ValidAux_encode (s : List Nat) (hs : EncStr s) :
    ∀ fuel, (utf8Encode s).length ≤ fuel → utf8ValidAux fuel (utf8Encode s) = true := by
  induction s with
  | nil => intro fuel _; cases fuel <;> simp [utf8Encode, utf8ValidAux]
  | cons c cs ih =>
    intro fuel hf
    obtain ⟨b, bs, he, hstep⟩ :=
      utf8EncodeChar_step c (hs c (by simp)) (utf8Encode cs)
    have henc : utf8Encode (c :: cs) = b :: (bs ++ utf8Encode cs) := by
      simp [utf8Encode, List.flatMap_cons, he]
    rw [henc] at hf ⊢
    match fuel, hf with
    | fuel + 1, hf =>
      simp only [utf8ValidAux, hstep, List.drop_left, Bool.true_and]
      refine ih (fun c hcs => hs c (by simp [hcs])) fuel ?_
      simp only [List.length_cons, List.length_append] at hf ⊢
      omega

/-- `str.encode("utf-8")` of encodable code points is well-formed UTF-8. -/
theorem utf8Valid_encode (s : List Nat) (hs : EncStr s) : utf8Valid (utf8Encode s) = true :=
  utf8ValidAux_encode s hs _ le_rfl

theorem utf8DecAux_encStr : ∀ (fuel : Nat) (l : List Nat), EncStr (utf8DecAux fuel l) := by
  intro fuel
  induction fuel with
  | zero => intro l; simp [utf8DecAux, EncStr]
  | succ n ih =>
    intro l
    match l with
    | [] => simp [utf8DecAux, EncStr]
    | b :: rest =>
      intro c hc
      simp only [utf8DecAux, List.mem_cons] at hc
      rcases hc with hc | hc
      · rw [hc]; exact utf8Step_encChar b rest
      · exact ih _ c hc

/-- Replacement decoding only produces Unicode scalar values. -/
theorem utf8DecodeReplace_encStr (bytes : List Nat) : EncStr (utf8DecodeReplace bytes) :=
  utf8DecAux_encStr _ _

/-- Replacement decoding never yields more code points than input bytes. -/
theorem utf8DecodeReplace_length_le (bytes : List Nat) :
    (utf8DecodeReplace bytes).length ≤ bytes.length :=
  utf8DecAux_length_le _ _

/-! ## BLIB bundle codec (book-ingest/src/bundle.py) -/

/-- `bundle.py` dataclass `ChapterMeta`.  Note: the source dataclass has
exactly the fields `word_count`, `title`, `slug` — there is no `chapter_id`. -/
structure ChapterMeta where
  word_count : Nat := 0
  title : List Nat := []
  slug : List Nat := []
deriving Repr, DecidableEq

def META_ENTRY_SIZE : Nat := 256
def META_TITLE_MAX : Nat := 200
def META_SLUG_MAX : Nat := 48
def BUNDLE_MAGIC : List Nat := [66, 76, 73, 66]

/-- `bundle.py _encode_meta`: fixed 256-byte block.  `word_count` (LE u32) at
offset 0, `title_len` byte at offset 4, title bytes (truncated to 200) from
offset 5 zero-padded, `slug_len` byte at offset 205, slug bytes (truncated to
48) from offset 206 zero-padded, reserved zero bytes at 254-255. -/
def encodeMeta (meta : ChapterMeta) : List Nat :=
  let titleBytes := (utf8Encode meta.title).take META_TITLE_MAX
  let slugBytes := (utf8Encode meta.slug).take META_SLUG_MAX
  le32 meta.word_count
    ++ [titleBytes.length] ++ titleBytes ++ List.replicate (META_TITLE_MAX - titleBytes.length) 0
    ++ [slugBytes.length] ++ slugBytes ++ List.replicate (META_SLUG_MAX - slugBytes.length) 0
    ++ [0, 0]

/-- `bundle.py _decode_meta`. -/
def decodeMeta (buf : List Nat) : ChapterMeta :=
  if buf.length < META_ENTRY_SIZE then {}
  else
    { word_count := readLe32 buf 0
      title := utf8DecodeReplace ((buf.drop 5).take (min (buf.getD 4 0) META_TITLE_MAX))
      slug := utf8DecodeReplace ((buf.drop 206).take (min (buf.getD 205 0) META_SLUG_MAX)) }

/-- `bundle.py _EMPTY_META_BLOCK`. -/
def emptyMetaBlock : List Nat := encodeMeta {}

/-- v2 header: magic + version + count + meta_entry_size + reserved. -/
def headerBytesV2 (count : Nat) : List Nat :=
  BUNDLE_MAGIC ++ le32 2 ++ le32 count ++ le16 META_ENTRY_SIZE ++ le16 0

/-- Model of `sorted(chapters.keys())` (insertion sort; agrees with any
correct sort on the multiset of keys). -/
def sortKeys (l : List Nat) : List Nat := List.insertionSort (· ≤ ·) l

/-- One chapter as handed to `write_bundle`: (compressed bytes, uncompressed length). -/
abbrev ChapterBlob := List Nat × Nat

/-- `write_bundle`'s per-chapter metadata choice: the entry of `meta`, or the
empty (zero-filled) metadata when absent. -/
def metaFor (meta : List (Nat × ChapterMeta)) (k : Nat) : ChapterMeta :=
  match meta.lookup k with
  | some m => m
  | none => {}

/-- One chapter of `write_bundle`'s loop after dict lookups. -/
structure Resolved where
  idx : Nat
  comp : List Nat
  raw : Nat
  meta : ChapterMeta
deriving Repr, DecidableEq

/-- The chapters of `write_bundle`'s loop, in sorted index order. -/
def resolveChapters (chapters : List (Nat × ChapterBlob))
    (meta : List (Nat × ChapterMeta)) : List Resolved :=
  (sortKeys (chapters.map Prod.fst)).map fun k =>
    let blob := (chapters.lookup k).getD ([], 0)
    { idx := k, comp := blob.1, raw := blob.2, meta := metaFor meta k }

/-- `current_offset` of each loop iteration: the first block starts at
`data_start`, each block occupies `META_ENTRY_SIZE + comp_len` bytes. -/
def offsetsFrom (start : Nat) : List Resolved → List Nat
  | [] => []
  | r :: rest => start :: offsetsFrom (start + META_ENTRY_SIZE + r.comp.length) rest

/-- The index section: 16 bytes per entry
(`index_num`, `offset`, `comp_len`, `raw_len`, all LE u32). -/
def indexBytes : List Resolved → List Nat → List Nat
  | r :: rest, o :: os =>
    le32 r.idx ++ le32 o ++ le32 r.comp.length ++ le32 r.raw ++ indexBytes rest os
  | _, _ => []

/-- The data section: per chapter, metadata block then compressed bytes. -/
def dataBytes (rs : List Resolved) : List Nat :=
  rs.flatMap fun r => encodeMeta r.meta ++ r.comp

/-- All numeric fields of the entry fit `struct.pack` formats `<I`/byte and
the strings are encodable (otherwise the Python writer raises). -/
def ResolvedOk (r : Resolved) : Prop :=
  r.idx < 4294967296 ∧ r.comp.length < 4294967296 ∧ r.raw < 4294967296 ∧
    r.meta.word_count < 4294967296 ∧ EncStr r.meta.title ∧ EncStr r.meta.slug

instance (r : Resolved) : Decidable (ResolvedOk r) := by unfold ResolvedOk; infer_instance

/-- `bundle.py write_bundle`, as the byte content of the file it writes
atomically.  `none` models both the empty-chapters no-op (no file produced)
and a raised `struct.error`/`UnicodeEncodeError` (tmp file unlinked, no file
produced). -/
def writeBundle (chapters : List (Nat × ChapterBlob))
    (meta : List (Nat × ChapterMeta)) : Option (List Nat) :=
  if chapters.isEmpty then none
  else if (resolveChapters chapters meta).length < 4294967296 ∧
      (∀ r ∈ resolveChapters chapters meta, ResolvedOk r) ∧
      (∀ o ∈ offsetsFrom (16 + (resolveChapters chapters meta).length * 16)
          (resolveChapters chapters meta), o < 4294967296) then
    some (headerBytesV2 (resolveChapters chapters meta).length ++
      indexBytes (resolveChapters chapters meta)
        (offsetsFrom (16 + (resolveChapters chapters meta).length * 16)
          (resolveChapters chapters meta)) ++
      dataBytes (resolveChapters chapters meta))
  else none

/-- `bundle.py _parse_header`: `(version, count, header_size, meta_entry_size)`. -/
def parseHeader (buf : List Nat) : Option (Nat × Nat × Nat × Nat) :=
  if buf.length < 12 then none
  else if buf.take 4 ≠ BUNDLE_MAGIC then none
  else
    let version := readLe32 buf 4
    if version ≠ 1 ∧ version ≠ 2 then none
    else
      let count := readLe32 buf 8
      if version = 1 then some (1, count, 12, 0)
      else if buf.length < 16 then none
      else some (2, count, 16, readLe16 buf 12)

/-- `bundle.py read_bundle_indices` on the bytes of an existing file. -/
def readBundleIndices (file : List Nat) : Finset Nat :=
  match parseHeader (file.take 16) with
  | none => ∅
  | some (_, count, header_size, _) =>
    if count = 0 then ∅
    else
      let idxBuf := (file.drop header_size).take (count * 16)
      if idxBuf.length < count * 16 then ∅
      else ((List.range count).map fun i => readLe32 idxBuf (i * 16)).toFinset

/-- `bundle.py read_bundle_raw` on the bytes of an existing file; the
returned association list is the Python dict in its insertion order. -/
def readBundleRaw (file : List Nat) : List (Nat × ChapterBlob) :=
  match parseHeader (file.take 16) with
  | none => []
  | some (_, count, header_size, meta_entry_size) =>
    if count = 0 then []
    else
      let idxBuf := (file.drop header_size).take (count * 16)
      if idxBuf.length < count * 16 then []
      else
        (List.range count).filterMap fun i =>
          let offset := readLe32 idxBuf (i * 16 + 4)
          let comp_len := readLe32 idxBuf (i * 16 + 8)
          let data := (file.drop (offset + meta_entry_size)).take comp_len
          if data.length = comp_len then
            some (readLe32 idxBuf (i * 16), (data, readLe32 idxBuf (i * 16 + 12)))
          else none

/-- `bundle.py read_bundle_meta` on the bytes of an existing file. -/
def readBundleMeta (file : List Nat) : List (Nat × ChapterMeta) :=
  match parseHeader (file.take 16) with
  | none => []
  | some (version, count, header_size, meta_entry_size) =>
    if version = 1 ∨ meta_entry_size = 0 then []
    else if count = 0 then []
    else
      let idxBuf := (file.drop header_size).take (count * 16)
      if idxBuf.length < count * 16 then []
      else
        (List.range count).filterMap fun i =>
          let offset := readLe32 idxBuf (i * 16 + 4)
          let metaBuf := (file.drop offset).take meta_entry_size
          if metaBuf.length = meta_entry_size then
            some (readLe32 idxBuf (i * 16), decodeMeta metaBuf)
          else none

/-! ## EPUB builder inline-metadata reader (epub-converter/epub_builder.py) -/

/-- The dict returned by `BundleReader.read_chapter_meta`. -/
structure EpubChapterMeta where
  chapter_id : Nat
  word_count : Nat
  title : List Nat
  slug : List Nat
deriving Repr, DecidableEq

def EPUB_META_TITLE_MAX : Nat := 196

/-- The field extraction of `BundleReader.read_chapter_meta` on a full
256-byte metadata block: `chapter_id` from bytes 0-3, `word_count` from
bytes 4-7, `title_len` at byte 8, title from byte 9, slug as in the ingest
decoder. -/
def epubDecodeChapterMeta (buf : List Nat) : EpubChapterMeta :=
  { chapter_id := readLe32 buf 0
    word_count := readLe32 buf 4
    title := utf8DecodeReplace ((buf.drop 9).take (min (buf.getD 8 0) EPUB_META_TITLE_MAX))
    slug := utf8DecodeReplace ((buf.drop 206).take (min (buf.getD 205 0) META_SLUG_MAX)) }

/-! ## Structural lemmas about the writer's output -/

theorem readLe16_le16 (n : Nat) (hn : n < 65536) (rest : List Nat) :
    readLe16 (le16 n ++ rest) 0 = n := by
  simp [readLe16, le16, List.getD]
  omega

@[simp] theorem headerBytesV2_length (count : Nat) : (headerBytesV2 count).length = 16 := rfl

@[simp] theorem encodeMeta_length (m : ChapterMeta) : (encodeMeta m).length = 256 := by
  have ht : ((utf8Encode m.title).take META_TITLE_MAX).length ≤ 200 := by
    simp [List.length_take, META_TITLE_MAX]
  have hs : ((utf8Encode m.slug).take META_SLUG_MAX).length ≤ 48 := by
    simp [List.length_take, META_SLUG_MAX]
  simp only [encodeMeta, List.length_append, List.length_cons, List.length_nil,
    List.length_replicate, le32_length, META_TITLE_MAX, META_SLUG_MAX] at *
  omega

theorem parseHeader_headerV2 (count : Nat) (hc : count < 4294967296) :
    parseHeader (headerBytesV2 count) = some (2, count, 16, 256) := by
  have hlen : (headerBytesV2 count).length = 16 := rfl
  have hmagic : (headerBytesV2 count).take 4 = BUNDLE_MAGIC := by
    have : headerBytesV2 count = BUNDLE_MAGIC ++ (le32 2 ++ le32 count ++ le16 256 ++ le16 0) := by
      simp [headerBytesV2, META_ENTRY_SIZE]
    rw [this]
    exact List.take_left' rfl
  have hver : readLe32 (headerBytesV2 count) 4 = 2 := by
    have : headerBytesV2 count = BUNDLE_MAGIC ++ (le32 2 ++ (le32 count ++ le16 256 ++ le16 0)) := by
      simp [headerBytesV2, META_ENTRY_SIZE]
    rw [this]
    have h4 : (BUNDLE_MAGIC : List Nat).length = 4 := rfl
    calc readLe32 (BUNDLE_MAGIC ++ (le32 2 ++ (le32 count ++ le16 256 ++ le16 0))) 4
        = readLe32 (BUNDLE_MAGIC ++ (le32 2 ++ (le32 count ++ le16 256 ++ le16 0)))
            ((BUNDLE_MAGIC : List Nat).length + 0) := by rw [h4]
      _ = readLe32 (le32 2 ++ (le32 count ++ le16 256 ++ le16 0)) 0 := readLe32_append_right ..
      _ = 2 := readLe32_le32 2 (by omega) _
  have hcount : readLe32 (headerBytesV2 count) 8 = count := by
    have : headerBytesV2 count =
        (BUNDLE_MAGIC ++ le32 2) ++ (le32 count ++ (le16 256 ++ le16 0)) := by
      simp [headerBytesV2, META_ENTRY_SIZE]
    rw [this]
    have h8 : ((BUNDLE_MAGIC : List Nat) ++ le32 2).length = 8 := rfl
    calc readLe32 ((BUNDLE_MAGIC ++ le32 2) ++ (le32 count ++ (le16 256 ++ le16 0))) 8
        = readLe32 ((BUNDLE_MAGIC ++ le32 2) ++ (le32 count ++ (le16 256 ++ le16 0)))
            (((BUNDLE_MAGIC : List Nat) ++ le32 2).length + 0) := by rw [h8]
      _ = readLe32 (le32 count ++ (le16 256 ++ le16 0)) 0 := readLe32_append_right ..
      _ = count := readLe32_le32 count hc _
  have hms : readLe16 (headerBytesV2 count) 12 = 256 := by
    have : headerBytesV2 count =
        (BUNDLE_MAGIC ++ le32 2 ++ le32 count) ++ (le16 256 ++ le16 0) := by
      simp [headerBytesV2, META_ENTRY_SIZE]
    rw [this]
    have h12 : ((BUNDLE_MAGIC : List Nat) ++ le32 2 ++ le32 count).length = 12 := rfl
    calc readLe16 ((BUNDLE_MAGIC ++ le32 2 ++ le32 count) ++ (le16 256 ++ le16 0)) 12
        = readLe16 ((BUNDLE_MAGIC ++ le32 2 ++ le32 count) ++ (le16 256 ++ le16 0))
            (((BUNDLE_MAGIC : List Nat) ++ le32 2 ++ le32 count).length + 0) := by rw [h12]
      _ = readLe16 (le16 256 ++ le16 0) 0 := readLe16_append_right ..
      _ = 256 := readLe16_le16 256 (by omega) _
  unfold parseHeader
  rw [if_neg (by rw [hlen]; omega), if_neg (by rw [hmagic]; simp), hver]
  rw [if_neg (by omega), if_neg (by omega), if_neg (by rw [hlen]; omega)]
  rw [hcount, hms]

theorem indexBytes_length (rs : List Resolved) :
    ∀ start, (indexBytes rs (offsetsFrom start rs)).length = 16 * rs.length := by
  induction rs with
  | nil => intro start; simp [indexBytes, offsetsFrom]
  | cons r rest ih =>
    intro start
    simp only [offsetsFrom, indexBytes, List.length_append, le32_length, List.length_cons,
      ih (start + META_ENTRY_SIZE + r.comp.length)]
    omega

instance : Inhabited Resolved := ⟨{ idx := 0, comp := [], raw := 0, meta := {} }⟩

theorem readLe32_entry_0 (a b c d : Nat) (tail : List Nat) (ha : a < 4294967296) :
    readLe32 (le32 a ++ le32 b ++ le32 c ++ le32 d ++ tail) 0 = a :=
  readLe32_le32 a ha _

theorem readLe32_entry_4 (a b c d : Nat) (tail : List Nat) (hb : b < 4294967296) :
    readLe32 (le32 a ++ le32 b ++ le32 c ++ le32 d ++ tail) 4 = b := by
  simp only [List.append_assoc]
  have h := readLe32_append_right (le32 a) (le32 b ++ (le32 c ++ (le32 d ++ tail))) 0
  simp only [le32_length, Nat.add_zero] at h
  rw [h]
  exact readLe32_le32 b hb _

theorem readLe32_entry_8 (a b c d : Nat) (tail : List Nat) (hc : c < 4294967296) :
    readLe32 (le32 a ++ le32 b ++ le32 c ++ le32 d ++ tail) 8 = c := by
  simp only [List.append_assoc]
  have h := readLe32_append_right (le32 a) (le32 b ++ (le32 c ++ (le32 d ++ tail))) 4
  simp only [le32_length] at h
  rw [show (8 : Nat) = 4 + 4 by rfl, h]
  have h2 := readLe32_append_right (le32 b) (le32 c ++ (le32 d ++ tail)) 0
  simp only [le32_length, Nat.add_zero] at h2
  rw [h2]
  exact readLe32_le32 c hc _

theorem readLe32_entry_12 (a b c d : Nat) (tail : List Nat) (hd : d < 4294967296) :
    readLe32 (le32 a ++ le32 b ++ le32 c ++ le32 d ++ tail) 12 = d := by
  simp only [List.append_assoc]
  have h := readLe32_append_right (le32 a) (le32 b ++ (le32 c ++ (le32 d ++ tail))) 8
  simp only [le32_length] at h
  rw [show (12 : Nat) = 4 + 8 by rfl, h]
  have h2 := readLe32_append_right (le32 b) (le32 c ++ (le32 d ++ tail)) 4
  simp only [le32_length] at h2
  rw [show (8 : Nat) = 4 + 4 by rfl, h2]
  have h3 := readLe32_append_right (le32 c) (le32 d ++ tail) 0
  simp only [le32_length, Nat.add_zero] at h3
  rw [h3]
  exact readLe32_le32 d hd _

theorem readLe32_entry_skip (a b c d : Nat) (tail : List Nat) (m : Nat) :
    readLe32 (le32 a ++ le32 b ++ le32 c ++ le32 d ++ tail) (16 + m) = readLe32 tail m := by
  have he : le32 a ++ le32 b ++ le32 c ++ le32 d ++ tail =
      (le32 a ++ le32 b ++ le32 c ++ le32 d) ++ tail := by
    simp [List.append_assoc]
  rw [he]
  have h16 : (le32 a ++ le32 b ++ le32 c ++ le32 d).length = 16 := by simp
  rw [show 16 + m = (le32 a ++ le32 b ++ le32 c ++ le32 d).length + m by rw [h16]]
  exact readLe32_append_right ..

theorem offsetsFrom_length (rs : List Resolved) :
    ∀ start, (offsetsFrom start rs).length = rs.length := by
  induction rs with
  | nil => intro start; simp [offsetsFrom]
  | cons r rest ih => intro start; simp [offsetsFrom, ih]

/-- Reading the four fields of the i-th index entry back out of the index
section gives the values the writer packed. -/
theorem indexBytes_read (rs : List Resolved) :
    ∀ start i, i < rs.length →
      (∀ r ∈ rs, ResolvedOk r) →
      (∀ o ∈ offsetsFrom start rs, o < 4294967296) →
      readLe32 (indexBytes rs (offsetsFrom start rs)) (i * 16) = (rs.getD i default).idx ∧
      readLe32 (indexBytes rs (offsetsFrom start rs)) (i * 16 + 4) =
        (offsetsFrom start rs).getD i 0 ∧
      readLe32 (indexBytes rs (offsetsFrom start rs)) (i * 16 + 8) =
        (rs.getD i default).comp.length ∧
      readLe32 (indexBytes rs (offsetsFrom start rs)) (i * 16 + 12) = (rs.getD i default).raw := by
  induction rs with
  | nil => intro start i hi _ _; simp at hi
  | cons r rest ih =>
    intro start i hi hok hoff
    have hokr : ResolvedOk r := hok r (by simp)
    have hoffs : start < 4294967296 := hoff start (by simp [offsetsFrom])
    match i with
    | 0 =>
      simp only [offsetsFrom, indexBytes, Nat.zero_mul, List.getD_cons_zero, Nat.zero_add]
      exact ⟨readLe32_entry_0 _ _ _ _ _ hokr.1, readLe32_entry_4 _ _ _ _ _ hoffs,
        readLe32_entry_8 _ _ _ _ _ hokr.2.1, readLe32_entry_12 _ _ _ _ _ hokr.2.2.1⟩
    | i + 1 =>
      have hi' : i < rest.length := by simp at hi; omega
      have hok' : ∀ x ∈ rest, ResolvedOk x := fun x hx => hok x (by simp [hx])
      have hoff' : ∀ o ∈ offsetsFrom (start + META_ENTRY_SIZE + r.comp.length) rest,
          o < 4294967296 := fun o ho => hoff o (by simp [offsetsFrom, ho])
      have := ih (start + META_ENTRY_SIZE + r.comp.length) i hi' hok' hoff'
      simp only [offsetsFrom, indexBytes, List.getD_cons_succ]
      have e0 : (i + 1) * 16 = 16 + i * 16 := by omega
      have e4 : (i + 1) * 16 + 4 = 16 + (i * 16 + 4) := by omega
      have e8 : (i + 1) * 16 + 8 = 16 + (i * 16 + 8) := by omega
      have e12 : (i + 1) * 16 + 12 = 16 + (i * 16 + 12) := by omega
      rw [e12, e8, e4, e0, readLe32_entry_skip, readLe32_entry_skip, readLe32_entry_skip,
        readLe32_entry_skip]
      exact this

/-- Dropping to the i-th chapter's block offset exposes its metadata block,
its compressed bytes, then the remaining blocks. -/
theorem dataBytes_drop (rs : List Resolved) :
    ∀ start (F : List Nat), F.drop start = dataBytes rs →
      ∀ i, i < rs.length →
        F.drop ((offsetsFrom start rs).getD i 0) =
          encodeMeta (rs.getD i default).meta ++
            ((rs.getD i default).comp ++ dataBytes (rs.drop (i + 1))) := by
  induction rs with
  | nil => intro start F _ i hi; simp at hi
  | cons r rest ih =>
    intro start F hF i hi
    have hcons : dataBytes (r :: rest) = encodeMeta r.meta ++ (r.comp ++ dataBytes rest) := by
      simp [dataBytes, List.flatMap_cons, List.append_assoc]
    match i with
    | 0 =>
      simp only [offsetsFrom, List.getD_cons_zero, List.getD_cons_zero, List.drop_succ_cons,
        List.drop_zero]
      rw [hF, hcons]
    | i + 1 =>
      have hi' : i < rest.length := by simp at hi; omega
      have hF' : F.drop (start + META_ENTRY_SIZE + r.comp.length) = dataBytes rest := by
        have hd : F.drop (start + META_ENTRY_SIZE + r.comp.length) =
            ((F.drop start).drop META_ENTRY_SIZE).drop r.comp.length := by
          rw [List.drop_drop, List.drop_drop]
          congr 1
          omega
        rw [hd, hF, hcons,
          show META_ENTRY_SIZE = (encodeMeta r.meta).length from (encodeMeta_length r.meta).symm,
          List.drop_left, List.drop_left]
      have := ih (start + META_ENTRY_SIZE + r.comp.length) F hF' i hi'
      simpa [offsetsFrom] using this

/-! ## Characterizing the readers on a written bundle -/

theorem writeBundle_inv (chapters : List (Nat × ChapterBlob)) (meta : List (Nat × ChapterMeta))
    (file : List Nat) (hw : writeBundle chapters meta = some file) :
    chapters ≠ [] ∧
    (resolveChapters chapters meta).length < 4294967296 ∧
    (∀ r ∈ resolveChapters chapters meta, ResolvedOk r) ∧
    (∀ o ∈ offsetsFrom (16 + (resolveChapters chapters meta).length * 16)
        (resolveChapters chapters meta), o < 4294967296) ∧
    file = headerBytesV2 (resolveChapters chapters meta).length ++
      indexBytes (resolveChapters chapters meta)
        (offsetsFrom (16 + (resolveChapters chapters meta).length * 16)
          (resolveChapters chapters meta)) ++
      dataBytes (resolveChapters chapters meta) := by
  unfold writeBundle at hw
  split at hw
  · exact absurd hw (by simp)
  · split at hw
    · rename_i hne hcond
      refine ⟨by simpa using hne, hcond.1, hcond.2.1, hcond.2.2, ?_⟩
      exact (Option.some.injEq _ _ ▸ hw).symm
    · exact absurd hw (by simp)

theorem resolveChapters_length (chapters : List (Nat × ChapterBlob))
    (meta : List (Nat × ChapterMeta)) :
    (resolveChapters chapters meta).length = chapters.length := by
  simp [resolveChapters, sortKeys, (List.perm_insertionSort _ _).length_eq]

theorem resolveChapters_map_idx (chapters : List (Nat × ChapterBlob))
    (meta : List (Nat × ChapterMeta)) :
    (resolveChapters chapters meta).map Resolved.idx = sortKeys (chapters.map Prod.fst) := by
  unfold resolveChapters
  rw [List.map_map]
  exact List.map_id'' (fun x => rfl) _

theorem bundleFile_take16 (rs : List Resolved) (offs : List Nat) :
    (headerBytesV2 rs.length ++ indexBytes rs offs ++ dataBytes rs).take 16 =
      headerBytesV2 rs.length := by
  rw [List.append_assoc]
  exact List.take_left' rfl

theorem bundleFile_idxBuf (rs : List Resolved) (start : Nat) :
    ((headerBytesV2 rs.length ++ indexBytes rs (offsetsFrom start rs) ++ dataBytes rs).drop
        16).take (rs.length * 16) = indexBytes rs (offsetsFrom start rs) := by
  rw [List.append_assoc]
  rw [List.drop_left' (by simp : (headerBytesV2 rs.length).length = 16)]
  exact List.take_left' (by rw [indexBytes_length, Nat.mul_comm])

theorem bundleFile_drop_dataStart (rs : List Resolved) (start : Nat) :
    (headerBytesV2 rs.length ++ indexBytes rs (offsetsFrom start rs) ++ dataBytes rs).drop
        (16 + rs.length * 16) = dataBytes rs := by
  refine List.drop_left' ?_
  simp [indexBytes_length, Nat.mul_comm]

/-- **C3.**  For every non-empty chapters map whose fields fit `struct.pack`'s
`u32` formats (that is: whenever `write_bundle` succeeds and produces a file),
`read_bundle_indices` on that file returns exactly the set of keys of
`chapters`. -/
theorem write_bundle_read_indices (chapters : List (Nat × ChapterBlob))
    (meta : List (Nat × ChapterMeta)) (file : List Nat)
    (hw : writeBundle chapters meta = some file) :
    readBundleIndices file = (chapters.map Prod.fst).toFinset := by
  obtain ⟨hne, hcount, hok, hoff, hfile⟩ := writeBundle_inv chapters meta file hw
  have hN0 : (resolveChapters chapters meta).length ≠ 0 := by
    rw [resolveChapters_length chapters meta]
    intro h
    exact hne (List.length_eq_zero.mp h)
  have hparse : parseHeader (file.take 16) =
      some (2, (resolveChapters chapters meta).length, 16, 256) := by
    rw [hfile, bundleFile_take16]
    exact parseHeader_headerV2 _ hcount
  have hibl : (indexBytes (resolveChapters chapters meta)
      (offsetsFrom (16 + (resolveChapters chapters meta).length * 16)
        (resolveChapters chapters meta))).length =
      16 * (resolveChapters chapters meta).length := indexBytes_length _ _
  have hidx : (file.drop 16).take ((resolveChapters chapters meta).length * 16) =
      indexBytes (resolveChapters chapters meta)
        (offsetsFrom (16 + (resolveChapters chapters meta).length * 16)
          (resolveChapters chapters meta)) := by
    rw [hfile]; exact bundleFile_idxBuf _ _
  have hmap : (List.range (resolveChapters chapters meta).length).map
      (fun i => readLe32 (indexBytes (resolveChapters chapters meta)
        (offsetsFrom (16 + (resolveChapters chapters meta).length * 16)
          (resolveChapters chapters meta))) (i * 16)) =
      (resolveChapters chapters meta).map Resolved.idx := by
    apply List.ext_getElem
    · simp
    · intro i h1 h2
      simp only [List.getElem_map, List.getElem_range]
      have hi : i < (resolveChapters chapters meta).length := by simpa using h1
      have := (indexBytes_read (resolveChapters chapters meta)
        (16 + (resolveChapters chapters meta).length * 16) i hi hok hoff).1
      rw [this, List.getD_eq_getElem (resolveChapters chapters meta) default hi]
  rw [readBundleIndices, hparse]
  simp only [if_neg hN0, hidx, hibl]
  rw [if_neg (by omega)]
  rw [hmap, resolveChapters_map_idx]
  exact List.toFinset_eq_of_perm _ _ (List.perm_insertionSort _ _)

/-- A concrete two-chapter bundle input. -/
def chaptersW : List (Nat × ChapterBlob) := [(2, ([9, 9], 2)), (1, ([7], 1))]

/-- A concrete metadata map for `chaptersW` (chapter 2 has no entry). -/
def metaW : List (Nat × ChapterMeta) :=
  [(1, { word_count := 5, title := [97, 98], slug := [99] })]

set_option maxRecDepth 10000 in
/-- Witness for C3: a concrete bundle write whose read-back index set is the key set. -/
theorem write_bundle_read_indices_witness :
    readBundleIndices ((writeBundle chaptersW metaW).getD []) =
      (chaptersW.map Prod.fst).toFinset :=
  write_bundle_read_indices chaptersW metaW _ (by decide)

/-! ## Metadata block layout (claims C1, C9, C10) -/

theorem encodeMeta_readLe32_0 (m : ChapterMeta) (h : m.word_count < 4294967296) :
    readLe32 (encodeMeta m) 0 = m.word_count := by
  unfold encodeMeta
  simp only [List.append_assoc]
  exact readLe32_le32 _ h _

theorem encodeMeta_getD_4 (m : ChapterMeta) :
    (encodeMeta m).getD 4 0 = ((utf8Encode m.title).take META_TITLE_MAX).length := by
  unfold encodeMeta
  simp only [List.append_assoc]
  rw [List.getD_append_right _ _ _ _ (by simp)]
  simp

theorem encodeMeta_decomp_205 (m : ChapterMeta) :
    encodeMeta m =
      (le32 m.word_count ++ [((utf8Encode m.title).take META_TITLE_MAX).length] ++
          (utf8Encode m.title).take META_TITLE_MAX ++
          List.replicate (META_TITLE_MAX - ((utf8Encode m.title).take META_TITLE_MAX).length) 0) ++
        ([((utf8Encode m.slug).take META_SLUG_MAX).length] ++
          ((utf8Encode m.slug).take META_SLUG_MAX ++
            (List.replicate (META_SLUG_MAX - ((utf8Encode m.slug).take META_SLUG_MAX).length) 0 ++
              [0, 0]))) := by
  unfold encodeMeta
  simp [List.append_assoc]

theorem encodeMeta_len_205 (m : ChapterMeta) :
    (le32 m.word_count ++ [((utf8Encode m.title).take META_TITLE_MAX).length] ++
        (utf8Encode m.title).take META_TITLE_MAX ++
        List.replicate (META_TITLE_MAX - ((utf8Encode m.title).take META_TITLE_MAX).length)
          0).length = 205 := by
  simp only [List.length_append, le32_length, List.length_cons, List.length_nil,
    List.length_replicate, List.length_take, META_TITLE_MAX]
  omega

theorem encodeMeta_getD_205 (m : ChapterMeta) :
    (encodeMeta m).getD 205 0 = ((utf8Encode m.slug).take META_SLUG_MAX).length := by
  rw [encodeMeta_decomp_205 m,
    List.getD_append_right _ _ _ _ (by rw [encodeMeta_len_205 m])]
  rw [encodeMeta_len_205 m]
  simp

theorem encodeMeta_drop_5 (m : ChapterMeta) :
    (encodeMeta m).drop 5 =
      (utf8Encode m.title).take META_TITLE_MAX ++
        (List.replicate (META_TITLE_MAX - ((utf8Encode m.title).take META_TITLE_MAX).length) 0 ++
          ([((utf8Encode m.slug).take META_SLUG_MAX).length] ++
            ((utf8Encode m.slug).take META_SLUG_MAX ++
              (List.replicate (META_SLUG_MAX - ((utf8Encode m.slug).take META_SLUG_MAX).length) 0 ++
                [0, 0])))) := by
  have hE : encodeMeta m =
      (le32 m.word_count ++ [((utf8Encode m.title).take META_TITLE_MAX).length]) ++
        ((utf8Encode m.title).take META_TITLE_MAX ++
          (List.replicate (META_TITLE_MAX - ((utf8Encode m.title).take META_TITLE_MAX).length) 0 ++
            ([((utf8Encode m.slug).take META_SLUG_MAX).length] ++
              ((utf8Encode m.slug).take META_SLUG_MAX ++
                (List.replicate (META_SLUG_MAX - ((utf8Encode m.slug).take META_SLUG_MAX).length)
                    0 ++ [0, 0]))))) := by
    unfold encodeMeta
    simp [List.append_assoc]
  rw [hE, List.drop_left' (by simp)]

theorem encodeMeta_drop_206 (m : ChapterMeta) :
    (encodeMeta m).drop 206 =
      (utf8Encode m.slug).take META_SLUG_MAX ++
        (List.replicate (META_SLUG_MAX - ((utf8Encode m.slug).take META_SLUG_MAX).length) 0 ++
          [0, 0]) := by
  have hE : encodeMeta m =
      (le32 m.word_count ++ [((utf8Encode m.title).take META_TITLE_MAX).length] ++
          (utf8Encode m.title).take META_TITLE_MAX ++
          List.replicate (META_TITLE_MAX - ((utf8Encode m.title).take META_TITLE_MAX).length) 0 ++
          [((utf8Encode m.slug).take META_SLUG_MAX).length]) ++
        ((utf8Encode m.slug).take META_SLUG_MAX ++
          (List.replicate (META_SLUG_MAX - ((utf8Encode m.slug).take META_SLUG_MAX).length) 0 ++
            [0, 0])) := by
    unfold encodeMeta
    simp [List.append_assoc]
  rw [hE]
  refine List.drop_left' ?_
  simp only [List.length_append, le32_length, List.length_cons, List.length_nil,
    List.length_replicate, List.length_take, META_TITLE_MAX]
  omega

/-- Decoding an encoded block recovers the word count and the
replacement-decoded truncated title and slug bytes. -/
theorem decodeMeta_encodeMeta (m : ChapterMeta) (h : m.word_count < 4294967296) :
    decodeMeta (encodeMeta m) =
      { word_count := m.word_count,
        title := utf8DecodeReplace ((utf8Encode m.title).take META_TITLE_MAX),
        slug := utf8DecodeReplace ((utf8Encode m.slug).take META_SLUG_MAX) } := by
  have htb : ((utf8Encode m.title).take META_TITLE_MAX).length ≤ 200 := by
    simp [META_TITLE_MAX]
  have hsb : ((utf8Encode m.slug).take META_SLUG_MAX).length ≤ 48 := by
    simp [META_SLUG_MAX]
  unfold decodeMeta
  rw [if_neg (by rw [encodeMeta_length]; simp [META_ENTRY_SIZE])]
  congr 1
  · exact encodeMeta_readLe32_0 m h
  · rw [encodeMeta_getD_4 m, encodeMeta_drop_5 m]
    rw [min_eq_left (by simp [META_TITLE_MAX]), List.take_left]
  · rw [encodeMeta_getD_205 m, encodeMeta_drop_206 m]
    rw [min_eq_left (by simp [META_SLUG_MAX]), List.take_left]


/-- The concrete `ChapterMeta` used in the C1 refutation and witnesses. -/
def metaC1 : ChapterMeta := { word_count := 7, title := [97, 98], slug := [99] }

set_option maxRecDepth 10000 in
/-- **C1** (counterexample).  `_encode_meta` puts `word_count` — not a
`chapter_id` — at bytes 0-3 of the 256-byte block: for a `ChapterMeta` with
`word_count = 7`, bytes 0-3 decode to 7 while bytes 4-7 (where the claim
places `word_count`) do not; the EPUB reader's `read_chapter_meta` therefore
reports the word count as `chapter_id`, and the ingest-side `ChapterMeta`
has no chapter id at all to return. -/
theorem claim_C1_counterexample :
    readLe32 (encodeMeta metaC1) 0 = 7 ∧
    readLe32 (encodeMeta metaC1) 4 ≠ 7 ∧
    (epubDecodeChapterMeta (encodeMeta metaC1)).chapter_id = 7 ∧
    (decodeMeta (encodeMeta metaC1)).word_count = 7 := by
  refine ⟨by decide, by decide, by decide, by decide⟩

/-- **C1** (amended).  The fixed 256-byte inline block stores, in order:
`word_count` (u32), `title_len` (u8), 200 zero-padded title bytes,
`slug_len` (u8), 48 zero-padded slug bytes and 2 reserved zero bytes; there
is no `chapter_id` field.  Consequently reading a written block back
(ingest `_decode_meta`, or the EPUB builder's `read_chapter_meta`, which
labels bytes 0-3 `chapter_id`) returns the writer's `word_count` from
bytes 0-3. -/
theorem claim_C1_amended (m : ChapterMeta) (h : m.word_count < 4294967296) :
    (encodeMeta m).length = 256 ∧
    readLe32 (encodeMeta m) 0 = m.word_count ∧
    (encodeMeta m).getD 4 0 = ((utf8Encode m.title).take META_TITLE_MAX).length ∧
    (encodeMeta m).getD 205 0 = ((utf8Encode m.slug).take META_SLUG_MAX).length ∧
    (decodeMeta (encodeMeta m)).word_count = m.word_count ∧
    (epubDecodeChapterMeta (encodeMeta m)).chapter_id = m.word_count := by
  refine ⟨encodeMeta_length m, encodeMeta_readLe32_0 m h, encodeMeta_getD_4 m,
    encodeMeta_getD_205 m, ?_, ?_⟩
  · rw [decodeMeta_encodeMeta m h]
  · show readLe32 (encodeMeta m) 0 = m.word_count
    exact encodeMeta_readLe32_0 m h

set_option maxRecDepth 10000 in
/-- Witness for the amended C1 at the concrete `metaC1`. -/
theorem claim_C1_amended_witness :
    (encodeMeta metaC1).length = 256 ∧
    readLe32 (encodeMeta metaC1) 0 = metaC1.word_count ∧
    (encodeMeta metaC1).getD 4 0 = ((utf8Encode metaC1.title).take META_TITLE_MAX).length ∧
    (encodeMeta metaC1).getD 205 0 = ((utf8Encode metaC1.slug).take META_SLUG_MAX).length ∧
    (decodeMeta (encodeMeta metaC1)).word_count = metaC1.word_count ∧
    (epubDecodeChapterMeta (encodeMeta metaC1)).chapter_id = metaC1.word_count :=
  claim_C1_amended metaC1 (by decide)

theorem getD_take (l : List Nat) (k n : Nat) (h : k < n) :
    (l.take n).getD k 0 = l.getD k 0 := by
  rw [List.getD_eq_getElem?_getD, List.getD_eq_getElem?_getD, List.getElem?_take, if_pos h]

/-- The title a long `m.title` actually gets stored with: the first
`utf8Encode t1`-aligned part when the 200-byte cut is a code-point boundary. -/
theorem claim_C9_amended (m : ChapterMeta) (t1 t2 : List Nat) (ht : m.title = t1 ++ t2)
    (hs : EncStr m.title) (hlen : (utf8Encode t1).length = 200) :
    ((encodeMeta m).drop 5).take META_TITLE_MAX = utf8Encode t1 ∧
    utf8Valid (((encodeMeta m).drop 5).take META_TITLE_MAX) = true := by
  have henc : utf8Encode m.title = utf8Encode t1 ++ utf8Encode t2 := by
    rw [ht]; simp [utf8Encode]
  have htb : (utf8Encode m.title).take META_TITLE_MAX = utf8Encode t1 := by
    rw [henc]
    exact List.take_left' (by rw [hlen]; rfl)
  have hstored : ((encodeMeta m).drop 5).take META_TITLE_MAX = utf8Encode t1 := by
    rw [encodeMeta_drop_5 m, htb]
    exact List.take_left' (by rw [hlen]; rfl)
  refine ⟨hstored, ?_⟩
  rw [hstored]
  refine utf8Valid_encode t1 ?_
  intro c hc
  exact hs c (by rw [ht]; exact List.mem_append_left t2 hc)

/-- The concrete over-long title of the C9 refutation: 199 ASCII bytes
followed by a two-byte code point (U+00E9), 201 bytes in all, so the
200-byte cut splits the final code point. -/
def titleC9 : List Nat := List.replicate 199 97 ++ [233]

set_option maxRecDepth 100000 in
/-- **C9** (counterexample).  `_encode_meta` truncates `title.encode("utf-8")`
with a plain 200-byte slice: for `titleC9` (UTF-8 length 201) the stored
title bytes end in the lone lead byte 0xC3 and are not well-formed UTF-8. -/
theorem claim_C9_counterexample :
    EncStr titleC9 ∧
    200 < (utf8Encode titleC9).length ∧
    ((encodeMeta { word_count := 0, title := titleC9, slug := [] }).drop 5).take META_TITLE_MAX =
      (utf8Encode titleC9).take 200 ∧
    utf8Valid ((utf8Encode titleC9).take 200) = false := by
  refine ⟨by decide, by decide, by decide, by decide⟩

/-- A title whose 200-byte UTF-8 cut falls exactly on a code-point boundary. -/
def metaC9good : ChapterMeta :=
  { word_count := 0, title := List.replicate 200 97 ++ [233], slug := [] }

set_option maxRecDepth 100000 in
/-- Witness for the amended C9: a 202-byte title whose 200-byte cut falls on
a code-point boundary is stored as well-formed UTF-8. -/
theorem claim_C9_amended_witness :
    ((encodeMeta metaC9good).drop 5).take META_TITLE_MAX =
      utf8Encode (List.replicate 200 97) ∧
    utf8Valid (((encodeMeta metaC9good).drop 5).take META_TITLE_MAX) = true :=
  claim_C9_amended metaC9good (List.replicate 200 97) [233] (by decide) (by decide) (by decide)

/-- **C10.**  `_decode_meta` is total and reads only inside the 256-byte
block: a buffer shorter than 256 bytes decodes to the empty `ChapterMeta`;
the result only depends on the first 256 bytes; the declared title and slug
lengths are clamped to 200 and 48 bytes, so the decoded title and slug never
exceed those lengths; and malformed UTF-8 is decoded by replacement into
Unicode scalar values rather than rejected. -/
theorem claim_C10 (buf : List Nat) :
    decodeMeta buf = decodeMeta (buf.take 256) ∧
    (buf.length < 256 → decodeMeta buf = {}) ∧
    (decodeMeta buf).title.length ≤ 200 ∧
    (decodeMeta buf).slug.length ≤ 48 ∧
    EncStr (decodeMeta buf).title ∧
    EncStr (decodeMeta buf).slug := by
  have hMES : META_ENTRY_SIZE = 256 := rfl
  refine ⟨?_, ?_, ?_, ?_, ?_, ?_⟩
  · rcases Nat.lt_or_ge buf.length 256 with hlen | hlen
    · rw [List.take_of_length_le (by omega)]
    · unfold decodeMeta
      rw [if_neg (by rw [hMES]; omega),
        if_neg (by rw [hMES]; simp only [List.length_take]; omega)]
      congr 1
      · unfold readLe32
        rw [getD_take buf 0 256 (by omega), getD_take buf (0 + 1) 256 (by omega),
          getD_take buf (0 + 2) 256 (by omega), getD_take buf (0 + 3) 256 (by omega)]
      · rw [getD_take buf 4 256 (by omega)]
        congr 1
        rw [List.drop_take 256 5 buf, List.take_take]
        congr 1
        have : min (buf.getD 4 0) META_TITLE_MAX ≤ 200 := by
          simp [META_TITLE_MAX]
        omega
      · rw [getD_take buf 205 256 (by omega)]
        congr 1
        rw [List.drop_take 256 206 buf, List.take_take]
        congr 1
        have : min (buf.getD 205 0) META_SLUG_MAX ≤ 48 := by
          simp [META_SLUG_MAX]
        omega
  · intro h
    unfold decodeMeta
    rw [if_pos (by rw [hMES]; omega)]
  · unfold decodeMeta
    split
    · simp
    · refine le_trans (utf8DecodeReplace_length_le _) ?_
      simp [META_TITLE_MAX]
  · unfold decodeMeta
    split
    · simp
    · refine le_trans (utf8DecodeReplace_length_le _) ?_
      simp [META_SLUG_MAX]
  · unfold decodeMeta
    split
    · simp [EncStr]
    · exact utf8DecodeReplace_encStr _
  · unfold decodeMeta
    split
    · simp [EncStr]
    · exact utf8DecodeReplace_encStr _

set_option maxRecDepth 10000 in
/-- Witness for C10 at two concrete buffers: a short (10-byte) buffer and a
256-byte buffer with an oversized declared title length (255). -/
theorem claim_C10_witness :
    (decodeMeta (List.replicate 10 1) = decodeMeta ((List.replicate 10 1).take 256) ∧
      ((List.replicate 10 1).length < 256 → decodeMeta (List.replicate 10 1) = {}) ∧
      (decodeMeta (List.replicate 10 1)).title.length ≤ 200 ∧
      (decodeMeta (List.replicate 10 1)).slug.length ≤ 48 ∧
      EncStr (decodeMeta (List.replicate 10 1)).title ∧
      EncStr (decodeMeta (List.replicate 10 1)).slug) ∧
    (decodeMeta (List.replicate 256 255) = decodeMeta ((List.replicate 256 255).take 256) ∧
      ((List.replicate 256 255).length < 256 → decodeMeta (List.replicate 256 255) = {}) ∧
      (decodeMeta (List.replicate 256 255)).title.length ≤ 200 ∧
      (decodeMeta (List.replicate 256 255)).slug.length ≤ 48 ∧
      EncStr (decodeMeta (List.replicate 256 255)).title ∧
      EncStr (decodeMeta (List.replicate 256 255)).slug) :=
  ⟨claim_C10 (List.replicate 10 1), claim_C10 (List.replicate 256 255)⟩

/-! ## API walk planning (book-ingest/src/sources/mtc.py, `_plan_resume`) -/

/-- Python truthiness of an optional integer (`if latest_chapter:`). -/
def truthy (x : Option Nat) : Bool :=
  match x with
  | none => false
  | some n => n != 0

/-- Outcome of `self._client.get_chapter(stored_chapter_id)`:
a chapter dict (its `index` field, defaulting to -1 when missing, and
`next.id` when present), a 404 (`FileNotFoundError`), or any other
exception. -/
inductive ChapterFetch where
  | ok (index : Int) (nextId : Option Nat)
  | notFound
  | error
deriving Repr, DecidableEq

/-- `MTCSource._plan_resume`: returns `(start_chapter_id, is_reverse)`. -/
def planResume (fetch : ChapterFetch) (maxBundleIdx : Nat)
    (firstChapter latestChapter : Option Nat) : Option Nat × Bool :=
  match fetch with
  | .ok returnedIdx nextId =>
    if returnedIdx ≠ (maxBundleIdx : Int) then (none, false)
    else (nextId, false)
  | .notFound =>
    if truthy latestChapter then (latestChapter, true)
    else (firstChapter, false)
  | .error => (firstChapter, false)

/-- **C2** (counterexample).  When fetching the anchor chapter fails with a
non-404 error, `_plan_resume` returns a FORWARD walk from `first_chapter`
even though `latest_chapter` is available — not the claimed REVERSE walk. -/
theorem claim_C2_counterexample :
    truthy (some 99) = true ∧
    planResume .error 5 (some 1) (some 99) = (some 1, false) := by
  exact ⟨rfl, rfl⟩

/-- **C2** (amended).  Only a 404 (`FileNotFoundError`) on the anchor fetch
falls back to a REVERSE walk from `latest_chapter` (when truthy; else a
FORWARD walk from `first_chapter`); every other fetch error falls back to a
FORWARD walk from `first_chapter` regardless of `latest_chapter`. -/
theorem claim_C2_amended (maxIdx : Nat) (first latest : Option Nat) :
    (truthy latest = true → planResume .notFound maxIdx first latest = (latest, true)) ∧
    (truthy latest = false → planResume .notFound maxIdx first latest = (first, false)) ∧
    planResume .error maxIdx first latest = (first, false) := by
  refine ⟨fun h => ?_, fun h => ?_, rfl⟩
  · simp [planResume, h]
  · simp [planResume, h]

/-- Witness for the amended C2 at concrete pointers. -/
theorem claim_C2_amended_witness :
    planResume .notFound 5 (some 1) (some 99) = (some 99, true) ∧
    planResume .notFound 5 (some 1) none = (some 1, false) ∧
    planResume .error 5 (some 1) (some 99) = (some 1, false) :=
  ⟨(claim_C2_amended 5 (some 1) (some 99)).1 (by decide),
   (claim_C2_amended 5 (some 1) none).2.1 (by decide),
   (claim_C2_amended 5 (some 1) (some 99)).2.2⟩

/-! ## Relational chapter sync (book-ingest/src/db.py, `insert_chapters`) -/

/-- A row of the `chapters` table keyed by `(book_id, index_num)`, carrying
`(title, slug, word_count)`. -/
abbrev ChaptersTable := List ((Nat × Nat) × (String × String × Nat))

/-- SQLite `INSERT OR REPLACE`: a conflicting row (same primary key) is
deleted and the new row inserted. -/
def sqlInsertOrReplace (tbl : ChaptersTable) (key : Nat × Nat)
    (val : String × String × Nat) : ChaptersTable :=
  tbl.filter (fun row => row.1 != key) ++ [(key, val)]

/-- `db.py insert_chapters`: one `INSERT OR REPLACE` per chapter. -/
def insert_chapters (tbl : ChaptersTable) (book_id : Nat)
    (chapters : List (Nat × (String × String × Nat))) : ChaptersTable :=
  chapters.foldl (fun t ch => sqlInsertOrReplace t (book_id, ch.1) ch.2) tbl

/-- `SELECT title, slug, word_count FROM chapters WHERE book_id = ? AND
index_num = ?` on the table model (first matching row). -/
def tblLookup (tbl : ChaptersTable) (key : Nat × Nat) : Option (String × String × Nat) :=
  match tbl with
  | [] => none
  | row :: rest => if row.1 = key then some row.2 else tblLookup rest key

theorem tblLookup_filter_self (tbl : ChaptersTable) (key : Nat × Nat) :
    tblLookup (tbl.filter (fun row => row.1 != key)) key = none := by
  induction tbl with
  | nil => rfl
  | cons r t ih =>
    rw [List.filter_cons]
    by_cases h : r.1 = key
    · rw [if_neg (by simp [h])]
      exact ih
    · rw [if_pos (by simp [h]), tblLookup, if_neg h]
      exact ih

theorem tblLookup_filter_other (tbl : ChaptersTable) (key k : Nat × Nat) (h : k ≠ key) :
    tblLookup (tbl.filter (fun row => row.1 != key)) k = tblLookup tbl k := by
  induction tbl with
  | nil => rfl
  | cons r t ih =>
    rw [List.filter_cons]
    by_cases hr : r.1 = key
    · rw [if_neg (by simp [hr]), ih, tblLookup, if_neg (by rw [hr]; exact fun e => h e.symm)]
    · rw [if_pos (by simp [hr]), tblLookup, tblLookup]
      by_cases hk : r.1 = k
      · rw [if_pos hk, if_pos hk]
      · rw [if_neg hk, if_neg hk]
        exact ih

theorem tblLookup_append (l1 l2 : ChaptersTable) (k : Nat × Nat) :
    tblLookup (l1 ++ l2) k = (tblLookup l1 k).or (tblLookup l2 k) := by
  induction l1 with
  | nil => rfl
  | cons r t ih =>
    rw [List.cons_append, tblLookup, tblLookup]
    by_cases hk : r.1 = k
    · rw [if_pos hk, if_pos hk]
      rfl
    · rw [if_neg hk, if_neg hk]
      exact ih

/-- **C4** (amended).  Chapter-metadata rows are written with
`INSERT OR REPLACE` keyed on `(book_id, index)`: inserting a row for a pair
that already has a row replaces the existing row title, slug and
word_count with the new values, and leaves rows for every other key
unchanged. -/
theorem claim_C4_amended (tbl : ChaptersTable) (book_id idx : Nat)
    (v : String × String × Nat) :
    tblLookup (insert_chapters tbl book_id [(idx, v)]) (book_id, idx) = some v ∧
    ∀ k, k ≠ (book_id, idx) →
      tblLookup (insert_chapters tbl book_id [(idx, v)]) k = tblLookup tbl k := by
  constructor
  · show tblLookup (sqlInsertOrReplace tbl (book_id, idx) v) (book_id, idx) = some v
    unfold sqlInsertOrReplace
    rw [tblLookup_append, tblLookup_filter_self, Option.none_or, tblLookup, if_pos rfl]
  · intro k hk
    show tblLookup (sqlInsertOrReplace tbl (book_id, idx) v) k = tblLookup tbl k
    unfold sqlInsertOrReplace
    rw [tblLookup_append, tblLookup_filter_other tbl _ k hk]
    cases hl : tblLookup tbl k with
    | some w => rfl
    | none =>
      rw [Option.none_or, tblLookup, if_neg (fun e => hk e.symm)]
      rfl

/-- **C4** (counterexample).  `insert_chapters` uses `INSERT OR REPLACE`,
not `INSERT OR IGNORE`: re-inserting key (1,1) replaces the stored
("old","o",5) row with the new values instead of leaving it unchanged. -/
theorem claim_C4_counterexample :
    tblLookup (insert_chapters [((1, 1), ("old", "o", 5))] 1 [(1, ("new", "n", 9))]) (1, 1) =
      some ("new", "n", 9) ∧
    some ("new", "n", 9) ≠ some ("old", "o", 5) := by
  constructor
  · rfl
  · simp

/-- Witness for the amended C4 at a concrete table. -/
theorem claim_C4_amended_witness :
    tblLookup (insert_chapters [((1, 1), ("old", "o", 5))] 1 [(1, ("new", "n", 9))]) (1, 1) =
      some ("new", "n", 9) ∧
    tblLookup (insert_chapters [((1, 1), ("old", "o", 5))] 1 [(1, ("new", "n", 9))]) (1, 2) =
      tblLookup [((1, 1), ("old", "o", 5))] (1, 2) :=
  ⟨(claim_C4_amended [((1, 1), ("old", "o", 5))] 1 1 ("new", "n", 9)).1,
   (claim_C4_amended [((1, 1), ("old", "o", 5))] 1 1 ("new", "n", 9)).2 (1, 2) (by decide)⟩

/-! ## Chapter compressor (book-ingest/src/compress.py) -/

/-- Failure of `ChapterCompressor.__init__`'s unconditional
`open(dict_path, "rb")`. -/
inductive CompressorInitError where
  | fileNotFound
deriving Repr, DecidableEq

/-- A constructed `ChapterCompressor`: the loaded dictionary bytes and level. -/
structure ChapterCompressor where
  dictData : List Nat
  level : Nat
deriving Repr, DecidableEq

/-- `ChapterCompressor.__init__(dict_path, level)`, with the file system
modelled as the optional content of `dict_path`: a missing file makes
`open` raise `FileNotFoundError`. -/
def mkChapterCompressor (dictFile : Option (List Nat)) (level : Nat) :
    Except CompressorInitError ChapterCompressor :=
  match dictFile with
  | none => .error .fileNotFound
  | some dict_data => .ok { dictData := dict_data, level := level }

/-- A symbolic `pyzstd.compress` result: which dictionary and level were
applied to which raw bytes (the codec itself is opaque at this level). -/
structure ZstdCompressed where
  zdict : Option (List Nat)
  level : Nat
  raw : List Nat
deriving Repr, DecidableEq

/-- `ChapterCompressor.compress(body)`: UTF-8-encode, compress with the
loaded dictionary, return `(compressed, uncompressed_length)`. -/
def ChapterCompressor.compress (c : ChapterCompressor) (body : List Nat) :
    ZstdCompressed × Nat :=
  ({ zdict := some c.dictData, level := c.level, raw := utf8Encode body },
    (utf8Encode body).length)

/-- **C5** (counterexample).  When the dictionary file does not exist,
constructing the compressor does **not** succeed: `__init__` opens the file
unconditionally and the `FileNotFoundError` propagates. -/
theorem claim_C5_counterexample :
    mkChapterCompressor none 3 = .error .fileNotFound := rfl

/-- **C5** (amended).  `ChapterCompressor` requires the dictionary file:
construction fails with `FileNotFoundError` when it is absent (the spec's
§7 treats a missing dictionary as a fatal configuration failure), and when
it is present every chapter body is compressed **with** the loaded
dictionary, returning the body's UTF-8 length as uncompressed length. -/
theorem claim_C5_amended (level : Nat) :
    mkChapterCompressor none level = .error .fileNotFound ∧
    ∀ d body, ∃ c, mkChapterCompressor (some d) level = .ok c ∧
      (c.compress body).1.zdict = some d ∧
      (c.compress body).1.level = level ∧
      (c.compress body).2 = (utf8Encode body).length := by
  refine ⟨rfl, fun d body => ⟨{ dictData := d, level := level }, rfl, rfl, rfl, rfl⟩⟩

/-! ## AES key extraction (crawler-descryptor/src/decrypt.py) -/

def KEY_START : Nat := 17
def KEY_END : Nat := 33

/-- Failures of the key-byte extraction in `extract_key_and_envelope`:
content shorter than 33 characters raises `DecryptionError`, and
`bytes(ord(c) for c in key_chars)` raises `ValueError` when any of the 16
characters has a code point ≥ 256. -/
inductive KeyExtractError where
  | tooShort (len : Nat)
  | valueError
deriving Repr, DecidableEq

/-- The key-byte computation of `extract_key_and_envelope` (decrypt.py):
`key_chars = content[17:33]; key_bytes = bytes(ord(c) for c in key_chars)`.
There is no reduction mod 256 in the source. -/
def extractKeyBytes (content : List Nat) : Except KeyExtractError (List Nat) :=
  if content.length < KEY_END then .error (.tooShort content.length)
  else if ((content.drop KEY_START).take (KEY_END - KEY_START)).all (fun c => c < 256) then
    .ok ((content.drop KEY_START).take (KEY_END - KEY_START))
  else .error .valueError

/-- **C6** (counterexample).  A 33-character content whose characters at
positions 17..32 have code point 256 does not yield a key: `bytes()`
raises `ValueError` instead of reducing mod 256. -/
theorem claim_C6_counterexample :
    (List.replicate 17 65 ++ List.replicate 16 256).length = 33 ∧
    extractKeyBytes (List.replicate 17 65 ++ List.replicate 16 256) =
      .error .valueError := by
  exact ⟨by decide, rfl⟩

/-- **C6** (amended).  Key extraction takes `content[17:33]` and uses each
character's code point directly (not mod 256) as one key byte; for every
content string of length at least 33 whose characters at positions 17..32
all have code points below 256 it produces the 16-byte key, and a code
point ≥ 256 there makes extraction raise instead. -/
theorem claim_C6_amended (content : List Nat) (hlen : 33 ≤ content.length)
    (hlt : ∀ c ∈ (content.drop 17).take 16, c < 256) :
    extractKeyBytes content = .ok ((content.drop 17).take 16) ∧
    ((content.drop 17).take 16).length = 16 := by
  constructor
  · unfold extractKeyBytes KEY_START KEY_END
    rw [if_neg (by omega), if_pos]
    refine List.all_eq_true.mpr ?_
    intro c hc
    simpa using hlt c (by simpa using hc)
  · rw [List.length_take, List.length_drop]
    omega

/-- Witness for the amended C6 at a concrete 33-character ASCII content. -/
theorem claim_C6_amended_witness :
    extractKeyBytes (List.replicate 33 65) =
      .ok (((List.replicate 33 65 : List Nat).drop 17).take 16) ∧
    (((List.replicate 33 65 : List Nat).drop 17).take 16).length = 16 :=
  claim_C6_amended (List.replicate 33 65) (by decide) (by decide)

/-! ## Python string helpers for the decrypt_chapter dedup (book-ingest/src/api.py) -/

/-- Whitespace as stripped by `str.strip()` (ASCII model: space, tab,
newline, carriage return, vertical tab, form feed). -/
def pyWs (c : Nat) : Bool := c == 32 || c == 9 || c == 10 || c == 13 || c == 11 || c == 12

/-- `str.lstrip()`. -/
def pyLStrip (s : List Nat) : List Nat := s.dropWhile pyWs

/-- `str.rstrip()`. -/
def pyRStrip (s : List Nat) : List Nat := (s.reverse.dropWhile pyWs).reverse

/-- `str.strip()`. -/
def pyStrip (s : List Nat) : List Nat := pyRStrip (pyLStrip s)

theorem pyRStrip_append (ys : List Nat) (c : Nat) :
    pyRStrip (ys ++ [c]) = if pyWs c then pyRStrip ys else ys ++ [c] := by
  unfold pyRStrip
  rw [List.reverse_append, List.reverse_singleton, List.singleton_append, List.dropWhile_cons]
  split
  · rfl
  · rw [List.reverse_cons, List.reverse_reverse]

theorem pyLStrip_ws_cons (c : Nat) (s : List Nat) (h : pyWs c = true) :
    pyLStrip (c :: s) = pyLStrip s := by
  unfold pyLStrip
  rw [List.dropWhile_cons, if_pos h]

theorem pyStrip_ws_cons (c : Nat) (s : List Nat) (h : pyWs c = true) :
    pyStrip (c :: s) = pyStrip s := by
  unfold pyStrip
  rw [pyLStrip_ws_cons c s h]

theorem pyStrip_ws_append (s : List Nat) (c : Nat) (h : pyWs c = true) :
    pyStrip (s ++ [c]) = pyStrip s := by
  unfold pyStrip pyLStrip
  rw [List.dropWhile_append]
  split
  · rename_i he
    rw [List.isEmpty_iff] at he
    simp [List.dropWhile_cons, h, he]
  · rw [pyRStrip_append, if_pos h]

/-- The head of `dropWhile p` does not satisfy `p`. -/
theorem dropWhile_head_neg {α : Type} {p : α → Bool} :
    ∀ {l x : List α} {a : α}, l.dropWhile p = a :: x → p a = false := by
  intro l
  induction l with
  | nil => intro x a h; simp at h
  | cons b t ih =>
    intro x a h
    rw [List.dropWhile_cons] at h
    split at h
    · exact ih h
    · rename_i hb
      cases h
      simpa using hb

/-! ### `str.split("\n")` facts (via `List.splitOn`) -/

theorem splitOn_cons10 (c : Nat) (s : List Nat) :
    (c :: s).splitOn 10 =
      if c = 10 then [] :: s.splitOn 10 else (s.splitOn 10).modifyHead (List.cons c) := by
  simp only [List.splitOn, List.splitOnP_cons, beq_iff_eq]

theorem splitOn_ne_nil (s : List Nat) : s.splitOn 10 ≠ [] := List.splitOnP_ne_nil _ s

theorem splitOn_not_mem10 (s : List Nat) : ∀ l ∈ s.splitOn 10, 10 ∉ l := by
  induction s with
  | nil =>
    rw [List.splitOn_nil]
    intro l hl
    rw [List.mem_singleton] at hl
    rw [hl]
    simp
  | cons c s ih =>
    rw [splitOn_cons10]
    by_cases hc : c = 10
    · rw [if_pos hc]
      intro l hl
      rcases List.mem_cons.mp hl with h | h
      · rw [h]; simp
      · exact ih l h
    · rw [if_neg hc]
      cases hS : s.splitOn 10 with
      | nil => exact absurd hS (splitOn_ne_nil s)
      | cons h t =>
        intro l hl
        rcases List.mem_cons.mp hl with he | he
        · rw [he]
          intro hmem
          rcases List.mem_cons.mp hmem with h10 | h10
          · exact hc h10.symm
          · exact ih h (hS ▸ List.mem_cons_self h t) h10
        · exact ih l (hS ▸ List.mem_cons_of_mem h he)

theorem splitOn_append10 (xs : List Nat) :
    (xs ++ [10]).splitOn 10 = xs.splitOn 10 ++ [[]] := by
  induction xs with
  | nil =>
    rw [List.nil_append, splitOn_cons10, if_pos rfl, List.splitOn_nil]
    rfl
  | cons c xs ih =>
    rw [List.cons_append, splitOn_cons10, splitOn_cons10]
    by_cases hc : c = 10
    · rw [if_pos hc, if_pos hc, ih]
      rfl
    · rw [if_neg hc, if_neg hc, ih]
      cases hS : xs.splitOn 10 with
      | nil => exact absurd hS (splitOn_ne_nil xs)
      | cons h t => rfl

theorem splitOn_append_ne10 (c : Nat) (hc : ¬c = 10) :
    ∀ xs : List Nat, ∃ I lastL, xs.splitOn 10 = I ++ [lastL] ∧
      (xs ++ [c]).splitOn 10 = I ++ [lastL ++ [c]] := by
  intro xs
  induction xs with
  | nil =>
    refine ⟨[], [], by rw [List.splitOn_nil]; rfl, ?_⟩
    rw [List.nil_append, splitOn_cons10, if_neg hc, List.splitOn_nil]
    rfl
  | cons d xs ih =>
    obtain ⟨I, lastL, h1, h2⟩ := ih
    by_cases hd : d = 10
    · refine ⟨[] :: I, lastL, ?_, ?_⟩
      · rw [splitOn_cons10, if_pos hd, h1]
        rfl
      · rw [List.cons_append, splitOn_cons10, if_pos hd, h2]
        rfl
    · cases I with
      | nil =>
        refine ⟨[], d :: lastL, ?_, ?_⟩
        · rw [splitOn_cons10, if_neg hd, h1]
          rfl
        · rw [List.cons_append, splitOn_cons10, if_neg hd, h2]
          rfl
      | cons i0 It =>
        refine ⟨(d :: i0) :: It, lastL, ?_, ?_⟩
        · rw [splitOn_cons10, if_neg hd, h1]
          rfl
        · rw [List.cons_append, splitOn_cons10, if_neg hd, h2]
          rfl

/-! ### First non-blank line, and its invariance under strip/join -/

/-- Is a line non-blank (`line.strip() != ""`)? -/
def lineNonBlank (l : List Nat) : Bool := !(pyStrip l == [])

/-- The claim's observable: split on newlines, first line whose strip is
non-empty. -/
def firstNonBlankLine (s : List Nat) : Option (List Nat) :=
  (s.splitOn 10).find? lineNonBlank

theorem fnb_ws_cons (c : Nat) (s : List Nat) (h : pyWs c = true) :
    (firstNonBlankLine (c :: s)).map pyStrip = (firstNonBlankLine s).map pyStrip := by
  unfold firstNonBlankLine
  by_cases h10 : c = 10
  · rw [splitOn_cons10, if_pos h10, List.find?_cons_of_neg _ (by decide)]
  · rw [splitOn_cons10, if_neg h10]
    cases hS : s.splitOn 10 with
    | nil => exact absurd hS (splitOn_ne_nil s)
    | cons hd t =>
      have hpred : lineNonBlank (c :: hd) = lineNonBlank hd := by
        unfold lineNonBlank
        rw [pyStrip_ws_cons c hd h]
      show (((c :: hd) :: t).find? lineNonBlank).map pyStrip =
        ((hd :: t).find? lineNonBlank).map pyStrip
      by_cases hb : lineNonBlank hd = true
      · rw [List.find?_cons_of_pos _ (hpred ▸ hb), List.find?_cons_of_pos _ hb]
        exact congrArg some (pyStrip_ws_cons c hd h)
      · rw [List.find?_cons_of_neg _ (by rw [hpred]; simpa using hb),
          List.find?_cons_of_neg _ (by simpa using hb)]

theorem fnb_ws_append (ys : List Nat) (c : Nat) (h : pyWs c = true) :
    (firstNonBlankLine (ys ++ [c])).map pyStrip = (firstNonBlankLine ys).map pyStrip := by
  unfold firstNonBlankLine
  by_cases h10 : c = 10
  · subst h10
    rw [splitOn_append10, List.find?_append,
      show List.find? lineNonBlank [[]] = none by decide,
      Option.or_none]
  · obtain ⟨I, lastL, h1, h2⟩ := splitOn_append_ne10 c h10 ys
    rw [h1, h2, List.find?_append, List.find?_append]
    have hpred : lineNonBlank (lastL ++ [c]) = lineNonBlank lastL := by
      unfold lineNonBlank
      rw [pyStrip_ws_append lastL c h]
    cases hI : List.find? lineNonBlank I with
    | some x => rfl
    | none =>
      simp only [Option.none_or]
      by_cases hb : lineNonBlank lastL = true
      · rw [List.find?_cons_of_pos _ (hpred ▸ hb), List.find?_cons_of_pos _ hb]
        exact congrArg some (pyStrip_ws_append lastL c h)
      · rw [List.find?_cons_of_neg _ (by rw [hpred]; simpa using hb),
          List.find?_cons_of_neg _ (by simpa using hb)]

theorem fnb_pyLStrip (y : List Nat) :
    (firstNonBlankLine (pyLStrip y)).map pyStrip = (firstNonBlankLine y).map pyStrip := by
  induction y with
  | nil => rfl
  | cons c y ih =>
    by_cases h : pyWs c
    · rw [pyLStrip_ws_cons c y h]
      exact ih.trans (fnb_ws_cons c y h).symm
    · unfold pyLStrip
      rw [List.dropWhile_cons, if_neg h]

theorem fnb_pyRStrip (y : List Nat) :
    (firstNonBlankLine (pyRStrip y)).map pyStrip = (firstNonBlankLine y).map pyStrip := by
  induction y using List.reverseRecOn with
  | nil => rfl
  | append_singleton ys c ih =>
    rw [pyRStrip_append]
    by_cases h : pyWs c
    · rw [if_pos h]
      exact ih.trans (fnb_ws_append ys c h).symm
    · rw [if_neg h]

theorem fnb_pyStrip (y : List Nat) :
    (firstNonBlankLine (pyStrip y)).map pyStrip = (firstNonBlankLine y).map pyStrip :=
  (fnb_pyRStrip (pyLStrip y)).trans (fnb_pyLStrip y)

/-! ### decrypt_chapter's title and body (book-ingest/src/api.py, lines 140-166) -/

/-- `f"Chương {index}"`: the code points of "Chương " then the decimal
digits of `index`. -/
def defaultChapterTitle (index : Nat) : List Nat :=
  [67, 104, 432, 417, 110, 103, 32] ++ (Nat.toDigits 10 index).map Char.toNat

/-- `title = ch_name.strip() if ch_name.strip() else f"Chương {index}"`. -/
def decryptTitle (name : List Nat) (index : Nat) : List Nat :=
  if pyStrip name ≠ [] then pyStrip name else defaultChapterTitle index

/-- The line selection of `decrypt_chapter`: skip leading blank lines
(`while ... lines[body_start].strip() == ""`), then skip one more line when
its strip equals the title. -/
def dedupLines (title : List Nat) (lines : List (List Nat)) : List (List Nat) :=
  match lines.dropWhile (fun l => pyStrip l == []) with
  | [] => []
  | l0 :: rest => if pyStrip l0 == title then rest else l0 :: rest

/-- `body = "\n".join(lines[body_start:]).strip()`. -/
def decryptBody (title : List Nat) (plaintext : List Nat) : List Nat :=
  pyStrip (List.intercalate [10] (dedupLines title (plaintext.splitOn 10)))

/-- `len(body.split())`: the number of maximal non-whitespace runs. -/
def pyWordCount (s : List Nat) : Nat :=
  ((s.splitOnP pyWs).filter (fun w => !w.isEmpty)).length

/-- The post-decryption stage of `decrypt_chapter`:
`(title, body, word_count)` from the API `name` field, the chapter `index`
and the decrypted plaintext. -/
def decryptChapterStage (name : List Nat) (index : Nat) (plaintext : List Nat) :
    List Nat × List Nat × Nat :=
  (decryptTitle name index,
   decryptBody (decryptTitle name index) plaintext,
   pyWordCount (decryptBody (decryptTitle name index) plaintext))

theorem dedupLines_eq_nil (title : List Nat) (lines : List (List Nat))
    (h : lines.dropWhile (fun l => pyStrip l == []) = []) : dedupLines title lines = [] := by
  unfold dedupLines
  rw [h]

theorem dedupLines_eq_cons (title : List Nat) (lines : List (List Nat))
    (l0 : List Nat) (rest : List (List Nat))
    (h : lines.dropWhile (fun l => pyStrip l == []) = l0 :: rest) :
    dedupLines title lines = if pyStrip l0 == title then rest else l0 :: rest := by
  unfold dedupLines
  rw [h]

theorem dedupLines_subset (title : List Nat) (lines : List (List Nat)) :
    ∀ x ∈ dedupLines title lines, x ∈ lines := by
  intro x hx
  cases hL : lines.dropWhile (fun l => pyStrip l == []) with
  | nil =>
    rw [dedupLines_eq_nil title lines hL] at hx
    simp at hx
  | cons l0 rest =>
    rw [dedupLines_eq_cons title lines l0 rest hL] at hx
    have hsub : ∀ y ∈ l0 :: rest, y ∈ lines := fun y hy =>
      (List.dropWhile_sublist _).subset (hL ▸ hy)
    split at hx
    · exact hsub x (List.mem_cons_of_mem l0 hx)
    · exact hsub x hx

set_option maxRecDepth 10000 in
/-- **C7** (counterexample).  With API name "T" (code point 84) and a
decrypted plaintext "T\nT\nx" whose first two lines both equal the name,
`decrypt_chapter` strips only one occurrence: the returned body is "T\nx"
and its first non-blank line still equals the API-supplied chapter name. -/
theorem claim_C7_counterexample :
    decryptTitle [84] 1 = [84] ∧
    (decryptChapterStage [84] 1 [84, 10, 84, 10, 120]).2.1 = [84, 10, 120] ∧
    (firstNonBlankLine (decryptChapterStage [84] 1 [84, 10, 84, 10, 120]).2.1).map pyStrip =
      some (pyStrip [84]) :=
  ⟨by decide, by decide, by decide⟩

/-- **C7** (amended).  The dedup strips at most one leading occurrence of
the (stripped, non-blank) chapter name: the first non-blank line of the
returned body differs from the name provided the second non-blank line of
the plaintext (the first non-blank line after the skipped region) does not
itself equal the name. -/
theorem claim_C7_amended (name : List Nat) (index : Nat) (plaintext l : List Nat)
    (hname : pyStrip name ≠ [])
    (h2 : ∀ l2 ∈ (((plaintext.splitOn 10).dropWhile
        (fun l => pyStrip l == [])).tail).find? lineNonBlank,
      pyStrip l2 ≠ pyStrip name)
    (hl : firstNonBlankLine (decryptBody (decryptTitle name index) plaintext) = some l) :
    pyStrip l ≠ pyStrip name := by
  have htitle : decryptTitle name index = pyStrip name := if_pos hname
  have hmap : ((dedupLines (pyStrip name) (plaintext.splitOn 10)).find? lineNonBlank).map pyStrip
      = some (pyStrip l) := by
    have hbody : (firstNonBlankLine (decryptBody (decryptTitle name index) plaintext)).map
        pyStrip = some (pyStrip l) := by
      rw [hl]
      rfl
    rw [htitle] at hbody
    unfold decryptBody at hbody
    rw [fnb_pyStrip] at hbody
    cases hdd : dedupLines (pyStrip name) (plaintext.splitOn 10) with
    | nil =>
      rw [hdd] at hbody
      rw [show (firstNonBlankLine (List.intercalate [10] ([] : List (List Nat)))).map pyStrip
          = none from by decide] at hbody
      exact Option.noConfusion hbody
    | cons d ds =>
      rw [hdd] at hbody
      have hsplit : (List.intercalate [10] (d :: ds)).splitOn 10 = d :: ds := by
        refine List.splitOn_intercalate (d :: ds) (10 : Nat) ?_ (List.cons_ne_nil d ds)
        intro l' hl'
        exact splitOn_not_mem10 plaintext l'
          (dedupLines_subset (pyStrip name) (plaintext.splitOn 10) l' (hdd ▸ hl'))
      rw [← hbody]
      unfold firstNonBlankLine
      rw [hsplit]
  cases hL : (plaintext.splitOn 10).dropWhile (fun l => pyStrip l == []) with
  | nil =>
    rw [dedupLines_eq_nil (pyStrip name) (plaintext.splitOn 10) hL] at hmap
    exact absurd hmap (by simp)
  | cons l0 rest =>
    rw [dedupLines_eq_cons (pyStrip name) (plaintext.splitOn 10) l0 rest hL] at hmap
    by_cases heq : (pyStrip l0 == pyStrip name) = true
    · rw [if_pos heq] at hmap
      obtain ⟨l2, hfind, hstrip⟩ := Option.map_eq_some'.mp hmap
      have hne := h2 l2 (by rw [hL]; exact hfind)
      rw [← hstrip]
      exact hne
    · rw [if_neg heq] at hmap
      have hl0 : lineNonBlank l0 = true := by
        unfold lineNonBlank
        rw [dropWhile_head_neg hL]
        rfl
      rw [List.find?_cons_of_pos _ hl0] at hmap
      have : pyStrip l0 = pyStrip l := by
        simpa using hmap
      rw [← this]
      simpa using heq

set_option maxRecDepth 10000 in
/-- Witness for the amended C7: name "T", plaintext "T\nx"; the single
leading occurrence of the name is stripped and the resulting body's first
non-blank line "x" differs from the name. -/
theorem claim_C7_amended_witness : pyStrip [120] ≠ pyStrip [84] :=
  claim_C7_amended [84] 1 [84, 10, 120] [120] (by decide) (by decide) (by decide)

/-! ## Write-read-write round trip (claim C8) -/

theorem filterMap_eq_map_of_forall {α β : Type} (l : List α) (f : α → Option β) (g : α → β)
    (h : ∀ a ∈ l, f a = some (g a)) : l.filterMap f = l.map g := by
  induction l with
  | nil => rfl
  | cons a t ih =>
    rw [List.filterMap_cons, h a (List.mem_cons_self a t), List.map_cons,
      ih (fun x hx => h x (List.mem_cons_of_mem a hx))]

theorem lookup_cons_self {β : Type} (k : Nat) (b : β) (t : List (Nat × β)) :
    ((k, b) :: t).lookup k = some b := by
  simp [List.lookup]

theorem lookup_cons_of_ne {β : Type} (k k2 : Nat) (b : β) (t : List (Nat × β)) (h : k ≠ k2) :
    ((k2, b) :: t).lookup k = t.lookup k := by
  have hb : (k == k2) = false := beq_eq_false_iff_ne.mpr h
  simp [List.lookup, hb]

theorem mem_of_lookup_eq_some {β : Type} :
    ∀ (l : List (Nat × β)) (k : Nat) (m : β), l.lookup k = some m → (k, m) ∈ l := by
  intro l
  induction l with
  | nil => intro k m h; exact absurd h (by simp)
  | cons p t ih =>
    intro k m h
    obtain ⟨k2, b⟩ := p
    by_cases hk : k = k2
    · subst hk
      rw [lookup_cons_self] at h
      cases h
      exact List.mem_cons_self _ _
    · rw [lookup_cons_of_ne _ _ _ _ hk] at h
      exact List.mem_cons_of_mem _ (ih k m h)

/-- Looking a mapped key back up in a map-built association list with
distinct keys. -/
theorem lookup_map_assoc {γ β : Type} (l : List γ) (f : γ → Nat) (v : γ → β)
    (hnd : (l.map f).Nodup) :
    ∀ r ∈ l, (l.map fun x => (f x, v x)).lookup (f r) = some (v r) := by
  induction l with
  | nil => intro r hr; simp at hr
  | cons a t ih =>
    intro r hr
    rw [List.map_cons] at hnd ⊢
    rcases List.mem_cons.mp hr with he | he
    · subst he
      exact lookup_cons_self _ _ _
    · have hne : f r ≠ f a := by
        intro hfe
        exact (List.nodup_cons.mp hnd).1 (hfe ▸ List.mem_map_of_mem f he)
      rw [lookup_cons_of_ne _ _ _ _ hne]
      exact ih (List.nodup_cons.mp hnd).2 r he

/-- The stored (truncated) title and slug bytes survive a
decode-with-replacement / re-encode round trip: the truncation fell on
code-point boundaries. -/
def MetaRT (m : ChapterMeta) : Prop :=
  utf8Encode (utf8DecodeReplace ((utf8Encode m.title).take META_TITLE_MAX)) =
    (utf8Encode m.title).take META_TITLE_MAX ∧
  utf8Encode (utf8DecodeReplace ((utf8Encode m.slug).take META_SLUG_MAX)) =
    (utf8Encode m.slug).take META_SLUG_MAX

instance (m : ChapterMeta) : Decidable (MetaRT m) := by unfold MetaRT; infer_instance

/-- Every entry of the metadata dict round-trips. -/
def MetasRT (meta : List (Nat × ChapterMeta)) : Prop := ∀ p ∈ meta, MetaRT p.2

instance (meta : List (Nat × ChapterMeta)) : Decidable (MetasRT meta) :=
  List.decidableBAll _ meta

theorem metaRT_empty : MetaRT {} := by decide

theorem encodeMeta_congr_bytes (m1 m2 : ChapterMeta)
    (hw : m1.word_count = m2.word_count)
    (ht : (utf8Encode m1.title).take META_TITLE_MAX = (utf8Encode m2.title).take META_TITLE_MAX)
    (hs : (utf8Encode m1.slug).take META_SLUG_MAX = (utf8Encode m2.slug).take META_SLUG_MAX) :
    encodeMeta m1 = encodeMeta m2 := by
  unfold encodeMeta
  rw [hw, ht, hs]

theorem encodeMeta_decodeMeta_encodeMeta (m : ChapterMeta) (h : m.word_count < 4294967296)
    (hrt : MetaRT m) : encodeMeta (decodeMeta (encodeMeta m)) = encodeMeta m := by
  rw [decodeMeta_encodeMeta m h]
  have htb : ((utf8Encode m.title).take META_TITLE_MAX).length ≤ META_TITLE_MAX := by
    simp [META_TITLE_MAX]
  have hsb : ((utf8Encode m.slug).take META_SLUG_MAX).length ≤ META_SLUG_MAX := by
    simp [META_SLUG_MAX]
  refine encodeMeta_congr_bytes _ m rfl ?_ ?_
  · show (utf8Encode (utf8DecodeReplace ((utf8Encode m.title).take META_TITLE_MAX))).take
        META_TITLE_MAX = (utf8Encode m.title).take META_TITLE_MAX
    rw [hrt.1]
    exact List.take_of_length_le htb
  · show (utf8Encode (utf8DecodeReplace ((utf8Encode m.slug).take META_SLUG_MAX))).take
        META_SLUG_MAX = (utf8Encode m.slug).take META_SLUG_MAX
    rw [hrt.2]
    exact List.take_of_length_le hsb

theorem bundleFile_drop_block (chapters : List (Nat × ChapterBlob))
    (meta : List (Nat × ChapterMeta)) (file : List Nat)
    (hw : writeBundle chapters meta = some file) (i : Nat)
    (hi : i < (resolveChapters chapters meta).length) :
    file.drop ((offsetsFrom (16 + (resolveChapters chapters meta).length * 16)
        (resolveChapters chapters meta)).getD i 0) =
      encodeMeta ((resolveChapters chapters meta).getD i default).meta ++
        (((resolveChapters chapters meta).getD i default).comp ++
          dataBytes ((resolveChapters chapters meta).drop (i + 1))) := by
  obtain ⟨_, _, _, _, hfile⟩ := writeBundle_inv chapters meta file hw
  refine dataBytes_drop (resolveChapters chapters meta)
    (16 + (resolveChapters chapters meta).length * 16) file ?_ i hi
  rw [hfile]
  exact bundleFile_drop_dataStart _ _

/-- `read_bundle_raw` on a file written by `write_bundle` returns the
compressed bytes and raw lengths of every chapter, in sorted index order. -/
theorem readBundleRaw_writeBundle (chapters : List (Nat × ChapterBlob))
    (meta : List (Nat × ChapterMeta)) (file : List Nat)
    (hw : writeBundle chapters meta = some file) :
    readBundleRaw file =
      (resolveChapters chapters meta).map (fun r => (r.idx, (r.comp, r.raw))) := by
  obtain ⟨hne, hcount, hok, hoff, hfile⟩ := writeBundle_inv chapters meta file hw
  have hN0 : (resolveChapters chapters meta).length ≠ 0 := by
    rw [resolveChapters_length chapters meta]
    intro h
    exact hne (List.length_eq_zero.mp h)
  have hparse : parseHeader (file.take 16) =
      some (2, (resolveChapters chapters meta).length, 16, 256) := by
    rw [hfile, bundleFile_take16]
    exact parseHeader_headerV2 _ hcount
  have hibl : (indexBytes (resolveChapters chapters meta)
      (offsetsFrom (16 + (resolveChapters chapters meta).length * 16)
        (resolveChapters chapters meta))).length =
      16 * (resolveChapters chapters meta).length := indexBytes_length _ _
  have hidx : (file.drop 16).take ((resolveChapters chapters meta).length * 16) =
      indexBytes (resolveChapters chapters meta)
        (offsetsFrom (16 + (resolveChapters chapters meta).length * 16)
          (resolveChapters chapters meta)) := by
    rw [hfile]
    exact bundleFile_idxBuf _ _
  rw [readBundleRaw, hparse]
  simp only [if_neg hN0, hidx, hibl]
  rw [if_neg (by omega)]
  refine (filterMap_eq_map_of_forall _ _
      (fun i => (((resolveChapters chapters meta).getD i default).idx,
        (((resolveChapters chapters meta).getD i default).comp,
          ((resolveChapters chapters meta).getD i default).raw))) ?_).trans ?_
  · intro i hi
    have hiN : i < (resolveChapters chapters meta).length := List.mem_range.mp hi
    obtain ⟨hkey, hofs, hcl, hraw⟩ := indexBytes_read (resolveChapters chapters meta)
      (16 + (resolveChapters chapters meta).length * 16) i hiN hok hoff
    have hdata : file.drop (readLe32 (indexBytes (resolveChapters chapters meta)
        (offsetsFrom (16 + (resolveChapters chapters meta).length * 16)
          (resolveChapters chapters meta))) (i * 16 + 4) + 256) =
        ((resolveChapters chapters meta).getD i default).comp ++
          dataBytes ((resolveChapters chapters meta).drop (i + 1)) := by
      rw [hofs, ← List.drop_drop, bundleFile_drop_block chapters meta file hw i hiN,
        show (256 : Nat) = (encodeMeta ((resolveChapters chapters meta).getD i
          default).meta).length from (encodeMeta_length _).symm, List.drop_left]
    rw [hcl, hdata, List.take_left, if_pos rfl, hkey, hraw]
  · apply List.ext_getElem
    · simp
    · intro j h1 h2
      have hj : j < (resolveChapters chapters meta).length := by simpa using h1
      simp only [List.getElem_map, List.getElem_range]
      rw [List.getD_eq_getElem _ default hj]

/-- `read_bundle_meta` on a file written by `write_bundle` returns the
decoded metadata block of every chapter, in sorted index order. -/
theorem readBundleMeta_writeBundle (chapters : List (Nat × ChapterBlob))
    (meta : List (Nat × ChapterMeta)) (file : List Nat)
    (hw : writeBundle chapters meta = some file) :
    readBundleMeta file = (resolveChapters chapters meta).map
      (fun r => (r.idx, decodeMeta (encodeMeta r.meta))) := by
  obtain ⟨hne, hcount, hok, hoff, hfile⟩ := writeBundle_inv chapters meta file hw
  have hN0 : (resolveChapters chapters meta).length ≠ 0 := by
    rw [resolveChapters_length chapters meta]
    intro h
    exact hne (List.length_eq_zero.mp h)
  have hparse : parseHeader (file.take 16) =
      some (2, (resolveChapters chapters meta).length, 16, 256) := by
    rw [hfile, bundleFile_take16]
    exact parseHeader_headerV2 _ hcount
  have hibl : (indexBytes (resolveChapters chapters meta)
      (offsetsFrom (16 + (resolveChapters chapters meta).length * 16)
        (resolveChapters chapters meta))).length =
      16 * (resolveChapters chapters meta).length := indexBytes_length _ _
  have hidx : (file.drop 16).take ((resolveChapters chapters meta).length * 16) =
      indexBytes (resolveChapters chapters meta)
        (offsetsFrom (16 + (resolveChapters chapters meta).length * 16)
          (resolveChapters chapters meta)) := by
    rw [hfile]
    exact bundleFile_idxBuf _ _
  rw [readBundleMeta, hparse]
  simp only [if_neg (show ¬((2 : Nat) = 1 ∨ (256 : Nat) = 0) by simp), if_neg hN0, hidx, hibl]
  rw [if_neg (by omega)]
  refine (filterMap_eq_map_of_forall _ _
      (fun i => (((resolveChapters chapters meta).getD i default).idx,
        decodeMeta (encodeMeta ((resolveChapters chapters meta).getD i default).meta))) ?_).trans
    ?_
  · intro i hi
    have hiN : i < (resolveChapters chapters meta).length := List.mem_range.mp hi
    obtain ⟨hkey, hofs, hcl, hraw⟩ := indexBytes_read (resolveChapters chapters meta)
      (16 + (resolveChapters chapters meta).length * 16) i hiN hok hoff
    have hmeta : (file.drop (readLe32 (indexBytes (resolveChapters chapters meta)
        (offsetsFrom (16 + (resolveChapters chapters meta).length * 16)
          (resolveChapters chapters meta))) (i * 16 + 4))).take 256 =
        encodeMeta ((resolveChapters chapters meta).getD i default).meta := by
      rw [hofs, bundleFile_drop_block chapters meta file hw i hiN,
        List.take_left' (encodeMeta_length _)]
    rw [hmeta, encodeMeta_length, if_pos rfl, hkey]
  · apply List.ext_getElem
    · simp
    · intro j h1 h2
      have hj : j < (resolveChapters chapters meta).length := by simpa using h1
      simp only [List.getElem_map, List.getElem_range]
      rw [List.getD_eq_getElem _ default hj]

/-- The per-chapter effect of a write-read round trip on a resolved entry:
data unchanged, metadata re-encoded through the decoder. -/
def rereadEntry (r : Resolved) : Resolved :=
  { idx := r.idx, comp := r.comp, raw := r.raw, meta := decodeMeta (encodeMeta r.meta) }

theorem offsetsFrom_reread : ∀ (start : Nat) (rs : List Resolved),
    offsetsFrom start (rs.map rereadEntry) = offsetsFrom start rs := by
  intro start rs
  induction rs generalizing start with
  | nil => rfl
  | cons r t ih => simp [offsetsFrom, rereadEntry, ih]

theorem indexBytes_reread : ∀ (rs : List Resolved) (offs : List Nat),
    indexBytes (rs.map rereadEntry) offs = indexBytes rs offs := by
  intro rs
  induction rs with
  | nil => intro offs; rfl
  | cons r t ih =>
    intro offs
    cases offs with
    | nil => rfl
    | cons o os => simp [indexBytes, rereadEntry, ih]

theorem dataBytes_reread (rs : List Resolved)
    (h : ∀ r ∈ rs, encodeMeta (decodeMeta (encodeMeta r.meta)) = encodeMeta r.meta) :
    dataBytes (rs.map rereadEntry) = dataBytes rs := by
  induction rs with
  | nil => rfl
  | cons r t ih =>
    simp only [List.map_cons, dataBytes, List.flatMap_cons] at ih ⊢
    rw [show (rereadEntry r).meta = decodeMeta (encodeMeta r.meta) from rfl,
      show (rereadEntry r).comp = r.comp from rfl, h r (List.mem_cons_self r t),
      ih (fun x hx => h x (List.mem_cons_of_mem r hx))]

/-- Every resolved entry's metadata round-trips when every dict entry does
(absent entries use the zero metadata, which trivially round-trips). -/
theorem resolveChapters_metaRT (chapters : List (Nat × ChapterBlob))
    (meta : List (Nat × ChapterMeta)) (hrt : MetasRT meta) :
    ∀ r ∈ resolveChapters chapters meta, MetaRT r.meta := by
  intro r hr
  unfold resolveChapters at hr
  obtain ⟨k, _, rfl⟩ := List.mem_map.mp hr
  show MetaRT (metaFor meta k)
  unfold metaFor
  cases hl : meta.lookup k with
  | none => exact metaRT_empty
  | some m => exact hrt (k, m) (mem_of_lookup_eq_some meta k m hl)

/-- Re-resolving the chapters read back from a written bundle: the keys are
already sorted and distinct, so every lookup resolves to the original entry
with its metadata decoded and re-encodable. -/
theorem resolveChapters_reread (RS : List Resolved)
    (hnd2 : (RS.map Resolved.idx).Nodup)
    (hsorted : List.Sorted (· ≤ ·) (RS.map Resolved.idx)) :
    resolveChapters (RS.map (fun r => (r.idx, (r.comp, r.raw))))
      (RS.map (fun r => (r.idx, decodeMeta (encodeMeta r.meta)))) = RS.map rereadEntry := by
  unfold resolveChapters
  have hk2 : ((RS.map (fun r => (r.idx, (r.comp, r.raw)))).map Prod.fst) =
      RS.map Resolved.idx := by
    rw [List.map_map]
    rfl
  rw [hk2,
    show sortKeys (RS.map Resolved.idx) = RS.map Resolved.idx from hsorted.insertionSort_eq]
  rw [List.map_map]
  apply List.map_congr_left
  intro r hr
  have hlc := lookup_map_assoc RS Resolved.idx (fun r => (r.comp, r.raw)) hnd2 r hr
  have hlm := lookup_map_assoc RS Resolved.idx
    (fun r => decodeMeta (encodeMeta r.meta)) hnd2 r hr
  simp only [Function.comp_apply, hlc, hlm, Option.getD_some, metaFor]
  rfl

/-- **C8** (amended).  For a bundle file produced by `write_bundle` from a
chapters dict (distinct keys) and a metadata dict all of whose entries'
truncated title and slug bytes survive the decode/encode round trip (in
particular whenever no 200/48-byte truncation split a UTF-8 code point),
rewriting the file with its own contents —
`write_bundle(path, read_bundle_raw(path), read_bundle_meta(path))` —
produces the byte-identical file.  Chapters absent from `meta` are stored
as zero-filled blocks and read back as zero-filled blocks, so the
idempotence includes the deterministic zero-filling of unknown metadata. -/
theorem claim_C8_amended (chapters : List (Nat × ChapterBlob))
    (meta : List (Nat × ChapterMeta)) (file : List Nat)
    (hnd : (chapters.map Prod.fst).Nodup) (hrt : MetasRT meta)
    (hw : writeBundle chapters meta = some file) :
    writeBundle (readBundleRaw file) (readBundleMeta file) = some file := by
  obtain ⟨hne, hcount, hok, hoff, hfile⟩ := writeBundle_inv chapters meta file hw
  have hN0 : (resolveChapters chapters meta).length ≠ 0 := by
    rw [resolveChapters_length chapters meta]
    intro h
    exact hne (List.length_eq_zero.mp h)
  have hnd2 : ((resolveChapters chapters meta).map Resolved.idx).Nodup := by
    rw [resolveChapters_map_idx chapters meta]
    exact (List.perm_insertionSort _ _).nodup_iff.mpr hnd
  have hsorted : List.Sorted (· ≤ ·) ((resolveChapters chapters meta).map Resolved.idx) := by
    rw [resolveChapters_map_idx chapters meta]
    exact List.sorted_insertionSort _ _
  have hres2 := resolveChapters_reread (resolveChapters chapters meta) hnd2 hsorted
  have hmrtAll : ∀ r ∈ resolveChapters chapters meta,
      encodeMeta (decodeMeta (encodeMeta r.meta)) = encodeMeta r.meta := by
    intro r hr
    exact encodeMeta_decodeMeta_encodeMeta r.meta ((hok r hr).2.2.2.1)
      (resolveChapters_metaRT chapters meta hrt r hr)
  rw [readBundleRaw_writeBundle chapters meta file hw,
    readBundleMeta_writeBundle chapters meta file hw]
  unfold writeBundle
  rw [if_neg (by
    intro hemp
    simp only [List.isEmpty_iff, List.map_eq_nil_iff] at hemp
    exact hN0 (by rw [hemp]; rfl))]
  rw [hres2]
  have hcond : ((resolveChapters chapters meta).map rereadEntry).length < 4294967296 ∧
      (∀ r ∈ (resolveChapters chapters meta).map rereadEntry, ResolvedOk r) ∧
      (∀ o ∈ offsetsFrom
          (16 + ((resolveChapters chapters meta).map rereadEntry).length * 16)
          ((resolveChapters chapters meta).map rereadEntry), o < 4294967296) := by
    refine ⟨by rw [List.length_map]; exact hcount, ?_, ?_⟩
    · intro r2 hr2
      obtain ⟨r, hr, rfl⟩ := List.mem_map.mp hr2
      obtain ⟨h1, h2, h3, h4, h5, h6⟩ := hok r hr
      refine ⟨h1, h2, h3, ?_, ?_, ?_⟩
      · show (decodeMeta (encodeMeta r.meta)).word_count < 4294967296
        rw [decodeMeta_encodeMeta r.meta h4]
        exact h4
      · show EncStr (decodeMeta (encodeMeta r.meta)).title
        rw [decodeMeta_encodeMeta r.meta h4]
        exact utf8DecodeReplace_encStr _
      · show EncStr (decodeMeta (encodeMeta r.meta)).slug
        rw [decodeMeta_encodeMeta r.meta h4]
        exact utf8DecodeReplace_encStr _
    · rw [List.length_map, offsetsFrom_reread]
      exact hoff
  rw [if_pos hcond, List.length_map, offsetsFrom_reread, indexBytes_reread,
    dataBytes_reread _ hmrtAll, ← hfile]

/-- A one-chapter bundle whose metadata title is 201 UTF-8 bytes: the
200-byte truncation splits the final code point. -/
def chC8 : List (Nat × ChapterBlob) := [(1, ([5], 1))]

/-- Metadata for `chC8` with the boundary-splitting title `titleC9`. -/
def metaC8 : List (Nat × ChapterMeta) := [(1, { word_count := 0, title := titleC9, slug := [] })]

set_option maxRecDepth 1000000 in
/-- **C8** (counterexample).  Rewriting a written bundle with its own
contents is **not** always byte-identical: with a title whose 200-byte
truncation split a code point, the replacement-decoded title re-encodes to
different bytes, and the second write differs from the first — a
difference in stored title bytes, not a zero-filling of unknown metadata. -/
theorem claim_C8_counterexample :
    (writeBundle chC8 metaC8).isSome = true ∧
    writeBundle (readBundleRaw ((writeBundle chC8 metaC8).getD []))
        (readBundleMeta ((writeBundle chC8 metaC8).getD [])) ≠
      writeBundle chC8 metaC8 :=
  ⟨by decide, by decide⟩

set_option maxRecDepth 100000 in
/-- Witness for the amended C8 at a concrete two-chapter bundle with
ASCII metadata. -/
theorem claim_C8_amended_witness :
    writeBundle (readBundleRaw ((writeBundle chaptersW metaW).getD []))
        (readBundleMeta ((writeBundle chaptersW metaW).getD [])) =
      some ((writeBundle chaptersW metaW).getD []) :=
  claim_C8_amended chaptersW metaW ((writeBundle chaptersW metaW).getD [])
    (by decide) (by decide) (by decide)

end BooksCrawler
